import Mathlib

/-!
Verification of the `deep` micro-PaaS controller.

Text (file contents, command output) is modelled as `List Char`; machine
integers (`u16`, `u32`) are modelled as `Nat`.  External collaborators
(container runtime, init system, proxy daemon, filesystem, SQLite) are
modelled by passing their observable outcomes as explicit parameters, and
the catalog as an explicit record of rows, so every function here is a
direct translation of the corresponding Rust function in `src/`.
-/

namespace Deep

/-! ### Text model: Rust `str::lines`, `str::trim` (ASCII whitespace) -/

abbrev Text := List Char

/-- ASCII fragment of Rust `char::is_whitespace` (all text in the claims is ASCII). -/
def isWs (c : Char) : Bool :=
  c = ' ' || c = '\t' || c = '\n' || c = '\x0b' || c = '\x0c' || c = '\r'

/-- Right trim: drop trailing whitespace, as the right half of Rust `str::trim`. -/
def trimR (l : Text) : Text := List.rdropWhile isWs l

/-- Rust `str::trim` (ASCII): drop leading and trailing whitespace. -/
def trim (l : Text) : Text := trimR (l.dropWhile isWs)

/-- Strip one trailing carriage return, as Rust `str::lines` does per line. -/
def stripCR (l : Text) : Text := if l.getLast? = some '\r' then l.dropLast else l

/-- Rust `str::lines`: split on `'\n'`; the final line ending is optional
(an empty final piece yields no line); one trailing `'\r'` is stripped from
each `'\n'`-terminated line, while an unterminated final line is kept
verbatim (a bare trailing `'\r'` survives, as in Rust). -/
def rustLines (s : Text) : List Text :=
  let parts := s.splitOn '\n'
  let last := parts.getLast?.getD []
  parts.dropLast.map stripCR ++ (if last = [] then [] else [last])

/-! ### Proxy reconciler (`src/proxy.rs`) -/

/-- `format!("# deep:app:{}", app)`. -/
def startMarker (app : Text) : Text := "# deep:app:".data ++ app

/-- The fixed end marker `# deep:end`. -/
def endMarker : Text := "# deep:end".data

/-- The `<host1>, <host2>, ... {` line of a rendered block. -/
def hostLine (domains : List Text) : Text :=
  List.intercalate ", ".data domains ++ " \x7b".data

/-- The `    reverse_proxy <upstream>` line of a rendered block. -/
def proxyLine (upstream : Text) : Text := "    reverse_proxy ".data ++ upstream

/-- The rendered managed block
`"{start}\n{hosts} {{\n    reverse_proxy {upstream}\n}}\n{end}\n"`. -/
def renderBlock (app : Text) (domains : List Text) (upstream : Text) : Text :=
  startMarker app ++ '\n' :: hostLine domains ++ '\n' :: proxyLine upstream
    ++ '\n' :: '\x7d' :: '\n' :: (endMarker ++ ['\n'])

/-- The five lines of a rendered managed block. -/
def blockLines (app : Text) (domains : List Text) (upstream : Text) : List Text :=
  [startMarker app, hostLine domains, proxyLine upstream, ['\x7d'], endMarker]

/-- The line scan of `upsert_caddyfile_block`: drop any existing block for
this app (everything between matching start/end markers), keep the rest. -/
def filterLines (app : Text) : Bool → List Text → List Text
  | _, [] => []
  | inBlock, l :: ls =>
    if trim l = startMarker app then filterLines app true ls
    else if inBlock ∧ trim l = endMarker then filterLines app false ls
    else if inBlock then filterLines app true ls
    else l :: filterLines app false ls

/-- Join kept lines with `'\n'` and ensure a trailing newline when non-empty,
as `upsert_caddyfile_block` does before appending the fresh block. -/
def joinLines (ls : List Text) : Text :=
  let output := List.intercalate ['\n'] ls
  if ¬output.getLast? = some '\n' ∧ output ≠ [] then output ++ ['\n'] else output

/-- `upsert_caddyfile_block` from `src/proxy.rs`. -/
def upsert_caddyfile_block (contents app : Text) (domains : List Text)
    (upstream : Text) : Text :=
  joinLines (filterLines app false (rustLines contents))
    ++ renderBlock app domains upstream

/-- `format!("deep-app-{}-{}", app_name, release_id)` from `src/runtime.rs`. -/
def app_container_name (app release_id : Text) : Text :=
  "deep-app-".data ++ app ++ '-' :: release_id

/-- Decimal digit characters, for rendering port numbers. -/
def digitChar (d : Nat) : Char := Char.ofNat (48 + d % 10)

/-- Fuel-driven decimal rendering (the fuel bounds the number of digits). -/
def natTextAux : Nat → Nat → Text
  | 0, _ => []
  | fuel + 1, n =>
    if n < 10 then [digitChar n] else natTextAux fuel (n / 10) ++ [digitChar (n % 10)]

/-- Decimal rendering of a `Nat`, modelling Rust's `Display` for `u16`. -/
def natText (n : Nat) : Text := natTextAux (n + 1) n

/-- Filesystem state visible to the proxy reconciler: the Caddyfile and its
`.bak` sibling (`none` = file absent). -/
structure ProxyFs where
  file : Option Text
  bak : Option Text
deriving DecidableEq

/-- Result of `upsert_route`: success, the empty-domains validation error, or
the two reload-failure errors (carrying the underlying messages). -/
inductive ProxyResult where
  | ok : ProxyResult
  | noDomains : ProxyResult
  | reloadRestored (err : Text) : ProxyResult
  | reloadCompound (err rollbackErr : Text) : ProxyResult
deriving DecidableEq

/-- `CaddyFile::upsert_route` from `src/proxy.rs`.  The two possible proxy
reloads are modelled by their outcomes `reload1` (the reload after writing)
and `reload2` (the reload after restoring), `none` meaning success. -/
def upsert_route (fs : ProxyFs) (app release_id : Text) (domains : List Text)
    (port : Nat) (reload1 reload2 : Option Text) : ProxyFs × ProxyResult :=
  if domains = [] then (fs, .noDomains)
  else
    let upstream := app_container_name app release_id ++ ':' :: natText port
    let contents := (fs.file).getD []
    let updated := upsert_caddyfile_block contents app domains upstream
    let fs1 : ProxyFs := { file := some updated, bak := some contents }
    match reload1 with
    | none => (fs1, .ok)
    | some err =>
      let fs2 : ProxyFs := { fs1 with file := some contents }
      match reload2 with
      | none => (fs2, .reloadRestored err)
      | some err2 => (fs2, .reloadCompound err err2)

/-! ### Text lemmas -/

/-- Characters that never occur in a well-formed marker, host or upstream. -/
abbrev cleanText (l : Text) : Prop := ∀ c ∈ l, c ≠ '\n' ∧ c ≠ '\r'

lemma not_newline_mem_of_clean {l : Text} (h : cleanText l) : '\n' ∉ l :=
  fun hm => (h _ hm).1 rfl

lemma mem_of_getLast? {α : Type} {l : List α} {c : α} (h : l.getLast? = some c) :
    c ∈ l := by
  cases l with
  | nil => simp at h
  | cons a t =>
    have hne : a :: t ≠ ([] : List α) := by simp
    rw [List.getLast?_eq_getLast _ hne] at h
    exact Option.some_injective _ h ▸ List.getLast_mem hne

lemma intercalate_cons₂ (sep a b : Text) (t : List Text) :
    List.intercalate sep (a :: b :: t) = a ++ sep ++ List.intercalate sep (b :: t) := by
  simp [List.intercalate]

lemma intercalate_single (sep a : Text) : List.intercalate sep [a] = a := by
  simp [List.intercalate]

lemma intercalate_concat (sep : Text) (ls : List Text) (a : Text) (h : ls ≠ []) :
    List.intercalate sep (ls ++ [a]) = List.intercalate sep ls ++ sep ++ a := by
  induction ls with
  | nil => exact absurd rfl h
  | cons x t ih =>
    cases t with
    | nil => simp [intercalate_cons₂, intercalate_single]
    | cons y t' =>
      have h1 : (x :: y :: t') ++ [a] = x :: (y :: (t' ++ [a])) := by simp
      have h2 : y :: (t' ++ [a]) = (y :: t') ++ [a] := by simp
      rw [h1, intercalate_cons₂, h2, ih (by simp), intercalate_cons₂]
      simp [List.append_assoc]

lemma mem_intercalate {c : Char} (sep : Text) (ls : List Text)
    (h : c ∈ List.intercalate sep ls) : c ∈ sep ∨ ∃ l ∈ ls, c ∈ l := by
  induction ls with
  | nil => simp [List.intercalate] at h
  | cons a t ih =>
    cases t with
    | nil =>
      rw [intercalate_single] at h
      exact Or.inr ⟨a, by simp, h⟩
    | cons b t' =>
      rw [intercalate_cons₂] at h
      rcases List.mem_append.mp h with h' | h'
      · rcases List.mem_append.mp h' with h'' | h''
        · exact Or.inr ⟨a, by simp, h''⟩
        · exact Or.inl h''
      · rcases ih h' with h'' | ⟨l, hl, hcl⟩
        · exact Or.inl h''
        · exact Or.inr ⟨l, by simp [hl], hcl⟩

lemma mem_splitOnP {p : Char → Bool} :
    ∀ (xs : Text), ∀ l ∈ xs.splitOnP p, ∀ a ∈ l, ¬p a := by
  intro xs
  induction xs with
  | nil =>
    intro l hl a ha
    simp [List.splitOnP_nil] at hl
    subst hl
    simp at ha
  | cons x t ih =>
    intro l hl a ha
    rw [List.splitOnP_cons] at hl
    by_cases hx : p x
    · rw [if_pos hx] at hl
      rcases List.mem_cons.mp hl with h | h
      · subst h; simp at ha
      · exact ih l h a ha
    · rw [if_neg hx] at hl
      obtain ⟨hd, tl, hsplit⟩ := List.exists_cons_of_ne_nil (List.splitOnP_ne_nil p t)
      rw [hsplit] at hl
      simp only [List.modifyHead_cons] at hl
      rcases List.mem_cons.mp hl with h | h
      · subst h
        rcases List.mem_cons.mp ha with h' | h'
        · subst h'; exact hx
        · exact ih hd (hsplit ▸ List.mem_cons_self hd tl) a h'
      · exact ih l (hsplit ▸ List.mem_cons.mpr (Or.inr h)) a ha

lemma splitOn_of_no_newline (l : Text) (h : '\n' ∉ l) : l.splitOn '\n' = [l] := by
  rw [List.splitOn]
  exact List.splitOnP_eq_single _ _ (fun x hx => by
    simp only [beq_iff_eq]
    exact fun hc => h (hc ▸ hx))

lemma splitOn_glue (ls : List Text) (hne : ls ≠ []) (h : ∀ l ∈ ls, '\n' ∉ l)
    (rest : Text) :
    (List.intercalate ['\n'] ls ++ '\n' :: rest).splitOn '\n'
      = ls ++ rest.splitOn '\n' := by
  induction ls with
  | nil => exact absurd rfl hne
  | cons a t ih =>
    cases t with
    | nil =>
      rw [intercalate_single, List.splitOn,
        List.splitOnP_first _ _ (fun x hx => by
          simp only [beq_iff_eq]
          exact fun hc => h a (by simp) (hc ▸ hx)) '\n' (by simp)]
      rfl
    | cons b t' =>
      rw [intercalate_cons₂]
      have : a ++ ['\n'] ++ List.intercalate ['\n'] (b :: t') ++ '\n' :: rest
          = a ++ '\n' :: (List.intercalate ['\n'] (b :: t') ++ '\n' :: rest) := by
        simp [List.append_assoc]
      rw [this, List.splitOn,
        List.splitOnP_first _ _ (fun x hx => by
          simp only [beq_iff_eq]
          exact fun hc => h a (by simp) (hc ▸ hx)) '\n' (by simp)]
      rw [← List.splitOn, ih (by simp) (fun l hl => h l (by simp [hl]))]
      rfl

lemma rustLines_nil : rustLines [] = [] := by decide

lemma rustLines_no_newline (s : Text) : ∀ l ∈ rustLines s, '\n' ∉ l := by
  intro l hl hnl
  unfold rustLines at hl
  simp only at hl
  rcases List.mem_append.mp hl with h | h
  · obtain ⟨l', hl', rfl⟩ := List.mem_map.mp h
    have hl'' : l' ∈ s.splitOn '\n' := (List.dropLast_sublist _).mem hl'
    have hmem : '\n' ∈ l' := by
      unfold stripCR at hnl
      by_cases hlast : l'.getLast? = some '\r'
      · rw [if_pos hlast] at hnl
        exact (List.dropLast_sublist _).mem hnl
      · rwa [if_neg hlast] at hnl
    exact mem_splitOnP s l' hl'' '\n' hmem (by simp)
  · by_cases hcond : (s.splitOn '\n').getLast?.getD [] = ([] : Text)
    · rw [if_pos hcond] at h
      exact absurd h (List.not_mem_nil l)
    · rw [if_neg hcond, List.mem_singleton] at h
      subst h
      cases hg : (s.splitOn '\n').getLast? with
      | none => rw [hg] at hcond; exact hcond rfl
      | some p =>
        rw [hg] at hnl
        exact mem_splitOnP s p (mem_of_getLast? hg) '\n' hnl (by simp)

lemma stripCR_of_no_cr {l : Text} (h : l.getLast? ≠ some '\r') : stripCR l = l := by
  unfold stripCR
  rw [if_neg h]

lemma rustLines_glue (ls : List Text) (hne : ls ≠ [])
    (hnl : ∀ l ∈ ls, '\n' ∉ l) (hcr : ∀ l ∈ ls, l.getLast? ≠ some '\r') (rest : Text) :
    rustLines (List.intercalate ['\n'] ls ++ '\n' :: rest) = ls ++ rustLines rest := by
  unfold rustLines
  simp only
  rw [splitOn_glue ls hne hnl rest]
  have hsp : rest.splitOn '\n' ≠ [] := List.splitOnP_ne_nil _ rest
  have hmap : List.map stripCR ls = ls :=
    List.map_congr_left (fun l hl => stripCR_of_no_cr (hcr l hl)) |>.trans (List.map_id ls)
  rw [List.getLast?_append_of_ne_nil ls hsp, List.dropLast_append_of_ne_nil ls hsp,
    List.map_append, hmap, List.append_assoc]

/-! ### Trim lemmas -/

lemma dropWhile_getLast? (p : Char → Bool) (l : Text) (h : l.dropWhile p ≠ []) :
    (l.dropWhile p).getLast? = l.getLast? := by
  obtain ⟨t, ht⟩ := (List.dropWhile_suffix p : List.IsSuffix (l.dropWhile p) l)
  conv_rhs => rw [← ht]
  rw [List.getLast?_append_of_ne_nil t h]

lemma trim_getLast? {l : Text} {c : Char} (hc : l.getLast? = some c)
    (hw : isWs c = false) : trim l = l.dropWhile isWs ∧ (trim l).getLast? = some c := by
  have hmem : c ∈ l := mem_of_getLast? hc
  have hne : l.dropWhile isWs ≠ [] := by
    rw [Ne, List.dropWhile_eq_nil_iff]
    push_neg
    exact ⟨c, hmem, by simp [hw]⟩
  have hlast : (l.dropWhile isWs).getLast? = some c := by
    rw [dropWhile_getLast? isWs l hne, hc]
  have hsplit : (l.dropWhile isWs).dropLast ++ [c] = l.dropWhile isWs :=
    List.dropLast_append_getLast? c hlast
  have : trim l = l.dropWhile isWs := by
    unfold trim trimR
    rw [← hsplit, List.rdropWhile_concat_neg _ _ _ (by simp [hw])]
  exact ⟨this, this ▸ hlast⟩

lemma trim_head? {l : Text} {c : Char} {rest : Text}
    (hd : l.dropWhile isWs = c :: rest) (hw : isWs c = false) :
    (trim l).head? = some c := by
  have hne : trim l ≠ [] := by
    unfold trim trimR
    rw [Ne, List.rdropWhile_eq_nil_iff, hd]
    push_neg
    exact ⟨c, by simp, by simp [hw]⟩
  obtain ⟨t, ht⟩ := List.rdropWhile_prefix isWs (l.dropWhile isWs)
  have htrim : trim l ++ t = c :: rest := by
    unfold trim trimR
    rw [← hd]
    exact ht
  cases htl : trim l with
  | nil => exact absurd htl hne
  | cons x xs =>
    rw [htl] at htrim
    simp only [List.cons_append, List.cons.injEq] at htrim
    simp [htrim.1]

/-! ### joinLines lemmas -/

lemma joinLines_nil : joinLines [] = [] := by decide

lemma joinLines_eq (ls : List Text) (hne : ls ≠ [])
    (hnl : ∀ l ∈ ls, '\n' ∉ l) (hlast : ls.getLast? ≠ some []) :
    joinLines ls = List.intercalate ['\n'] ls ++ ['\n'] := by
  obtain ⟨l', a, rfl⟩ := (List.eq_nil_or_concat ls).resolve_left hne
  rw [List.concat_eq_append] at *
  have ha : a ≠ [] := by
    intro h
    exact hlast (by simp [h])
  unfold joinLines
  simp only
  have hout : List.intercalate ['\n'] (l' ++ [a])
      = List.intercalate ['\n'] l' ++ ['\n'] ++ a ∨
      List.intercalate ['\n'] (l' ++ [a]) = a := by
    cases hl' : l' with
    | nil => right; simp [intercalate_single]
    | cons x t => left; rw [← hl', intercalate_concat _ _ _ (by simp [hl'])]
  have hlastc : (List.intercalate ['\n'] (l' ++ [a])).getLast? = a.getLast? := by
    rcases hout with h | h
    · rw [h, List.append_assoc, List.getLast?_append_of_ne_nil _ (by
        exact List.append_ne_nil_of_right_ne_nil _ ha)]
      rw [List.getLast?_append_of_ne_nil _ ha]
    · rw [h]
  obtain ⟨c, hc⟩ : ∃ c, a.getLast? = some c := by
    cases hca : a.getLast? with
    | none => exact absurd (List.getLast?_eq_none_iff.mp hca) ha
    | some c => exact ⟨c, rfl⟩
  have hcnl : c ≠ '\n' := fun h =>
    hnl a (by simp) (h ▸ mem_of_getLast? hc)
  rw [if_pos]
  constructor
  · rw [hlastc, hc]
    simp [hcnl]
  · rcases hout with h | h
    · rw [h]
      exact List.append_ne_nil_of_right_ne_nil _ ha
    · rw [h]; exact ha

lemma joinLines_concat_nil (ls : List Text) (hne : ls ≠ []) :
    joinLines (ls ++ [[]]) = List.intercalate ['\n'] ls ++ ['\n'] := by
  unfold joinLines
  simp only
  rw [intercalate_concat _ _ _ hne, List.append_nil]
  rw [if_neg (fun h => h.1 (List.getLast?_concat _))]

/-! ### filterLines lemmas -/

lemma filterLines_cons (app : Text) (b : Bool) (x : Text) (t : List Text) :
    filterLines app b (x :: t) =
      if trim x = startMarker app then filterLines app true t
      else if b = true ∧ trim x = endMarker then filterLines app false t
      else if b = true then filterLines app true t
      else x :: filterLines app false t := rfl

lemma filterLines_subset (app : Text) :
    ∀ (b : Bool) (ls : List Text), ∀ l ∈ filterLines app b ls, l ∈ ls := by
  intro b ls
  induction ls generalizing b with
  | nil => intro l hl; simp [filterLines] at hl
  | cons x t ih =>
    intro l hl
    rw [filterLines_cons] at hl
    by_cases h1 : trim x = startMarker app
    · rw [if_pos h1] at hl
      exact List.mem_cons.mpr (Or.inr (ih true l hl))
    · rw [if_neg h1] at hl
      by_cases h2 : b = true ∧ trim x = endMarker
      · rw [if_pos h2] at hl
        exact List.mem_cons.mpr (Or.inr (ih false l hl))
      · rw [if_neg h2] at hl
        by_cases h3 : b = true
        · rw [if_pos h3] at hl
          exact List.mem_cons.mpr (Or.inr (ih true l hl))
        · rw [if_neg h3] at hl
          rcases List.mem_cons.mp hl with h | h
          · exact List.mem_cons.mpr (Or.inl h)
          · exact List.mem_cons.mpr (Or.inr (ih false l h))

lemma filterLines_no_start (app : Text) :
    ∀ (b : Bool) (ls : List Text), ∀ l ∈ filterLines app b ls,
      trim l ≠ startMarker app := by
  intro b ls
  induction ls generalizing b with
  | nil => intro l hl; simp [filterLines] at hl
  | cons x t ih =>
    intro l hl
    rw [filterLines_cons] at hl
    by_cases h1 : trim x = startMarker app
    · rw [if_pos h1] at hl
      exact ih true l hl
    · rw [if_neg h1] at hl
      by_cases h2 : b = true ∧ trim x = endMarker
      · rw [if_pos h2] at hl
        exact ih false l hl
      · rw [if_neg h2] at hl
        by_cases h3 : b = true
        · rw [if_pos h3] at hl
          exact ih true l hl
        · rw [if_neg h3] at hl
          rcases List.mem_cons.mp hl with h | h
          · subst h; exact h1
          · exact ih false l h

lemma filterLines_append_of_no_start (app : Text) (xs ys : List Text)
    (h : ∀ l ∈ xs, trim l ≠ startMarker app) :
    filterLines app false (xs ++ ys) = xs ++ filterLines app false ys := by
  induction xs with
  | nil => simp
  | cons x t ih =>
    rw [List.cons_append, filterLines_cons, if_neg (h x (by simp)),
      if_neg (by simp), if_neg (by simp),
      ih (fun l hl => h l (by simp [hl])), List.cons_append]

/-! ### Marker and block-line lemmas -/

lemma getLast?_ne_cr_of_clean {l : Text} (h : cleanText l) :
    l.getLast? ≠ some '\r' :=
  fun hc => (h _ (mem_of_getLast? hc)).2 rfl

lemma cleanText_append {a b : Text} (ha : cleanText a) (hb : cleanText b) :
    cleanText (a ++ b) := by
  intro c hc
  rcases List.mem_append.mp hc with h | h
  · exact ha c h
  · exact hb c h

lemma digitChar_clean (d : Nat) : digitChar d ≠ '\n' ∧ digitChar d ≠ '\r' := by
  unfold digitChar
  have h : d % 10 < 10 := Nat.mod_lt _ (by omega)
  interval_cases h' : d % 10 <;> exact ⟨by decide, by decide⟩

lemma natTextAux_clean : ∀ (fuel n : Nat), cleanText (natTextAux fuel n) := by
  intro fuel
  induction fuel with
  | zero => intro n c hc; simp [natTextAux] at hc
  | succ f ih =>
    intro n c hc
    unfold natTextAux at hc
    by_cases h : n < 10
    · rw [if_pos h] at hc
      simp only [List.mem_singleton] at hc
      subst hc
      exact digitChar_clean n
    · rw [if_neg h] at hc
      rcases List.mem_append.mp hc with h' | h'
      · exact ih _ c h'
      · simp only [List.mem_singleton] at h'
        subst h'
        exact digitChar_clean _

lemma natText_clean (n : Nat) : cleanText (natText n) := natTextAux_clean _ _

lemma startMarker_clean {app : Text} (h : cleanText app) :
    cleanText (startMarker app) :=
  cleanText_append (by decide) h

lemma hostLine_clean {domains : List Text} (h : ∀ d ∈ domains, cleanText d) :
    cleanText (hostLine domains) := by
  apply cleanText_append _ (by decide)
  intro c hc
  rcases mem_intercalate _ _ hc with h' | ⟨l, hl, hcl⟩
  · rw [show (", ".data : Text) = [',', ' '] from rfl] at h'
    rcases List.mem_cons.mp h' with rfl | h''
    · exact ⟨by decide, by decide⟩
    · rcases List.mem_cons.mp h'' with rfl | h3
      · exact ⟨by decide, by decide⟩
      · exact absurd h3 (List.not_mem_nil c)
  · exact h l hl c hcl

lemma proxyLine_clean {upstream : Text} (h : cleanText upstream) :
    cleanText (proxyLine upstream) :=
  cleanText_append (by decide) h

lemma app_container_name_clean {app rel : Text} (ha : cleanText app)
    (hr : cleanText rel) : cleanText (app_container_name app rel) := by
  apply cleanText_append (cleanText_append (by decide) ha)
  intro c hc
  rcases List.mem_cons.mp hc with h | h
  · subst h; exact ⟨by decide, by decide⟩
  · exact hr c h

lemma blockLines_clean {app upstream : Text} {domains : List Text}
    (ha : cleanText app) (hd : ∀ d ∈ domains, cleanText d) (hu : cleanText upstream) :
    ∀ l ∈ blockLines app domains upstream, cleanText l := by
  intro l hl
  simp only [blockLines, List.mem_cons, List.not_mem_nil, or_false] at hl
  rcases hl with rfl | rfl | rfl | rfl | rfl
  · exact startMarker_clean ha
  · exact hostLine_clean hd
  · exact proxyLine_clean hu
  · decide
  · decide

lemma startMarker_head (app : Text) :
    startMarker app = '#' :: (" deep:app:".data ++ app) := rfl

lemma endMarker_ne_startMarker (app : Text) : endMarker ≠ startMarker app := by
  intro h
  rw [show startMarker app
      = '#' :: ' ' :: 'd' :: 'e' :: 'e' :: 'p' :: ':' :: 'a' :: 'p' :: 'p' :: ':' :: app
      from rfl,
    show endMarker = '#' :: ' ' :: 'd' :: 'e' :: 'e' :: 'p' :: ':' :: 'e' :: 'n' :: 'd' :: []
      from rfl] at h
  simp at h

lemma trim_endMarker : trim endMarker = endMarker := by decide

lemma trim_rbrace : trim ['\x7d'] = ['\x7d'] := by decide

lemma rbrace_ne_startMarker (app : Text) : (['\x7d'] : Text) ≠ startMarker app := by
  rw [startMarker_head]
  simp

lemma hostLine_getLast? (domains : List Text) :
    (hostLine domains).getLast? = some '\x7b' := by
  unfold hostLine
  rw [show (" \x7b".data : Text) = [' '] ++ ['\x7b'] from rfl, ← List.append_assoc,
    List.getLast?_concat]

lemma trim_hostLine_getLast? (domains : List Text) :
    (trim (hostLine domains)).getLast? = some '\x7b' :=
  (trim_getLast? (hostLine_getLast? domains) (by decide)).2

lemma trim_hostLine_ne_endMarker (domains : List Text) :
    trim (hostLine domains) ≠ endMarker := by
  intro h
  have h2 := trim_hostLine_getLast? domains
  rw [h] at h2
  exact absurd h2 (by decide)

lemma trim_proxyLine_head? (upstream : Text) :
    (trim (proxyLine upstream)).head? = some 'r' := by
  have h1 : List.dropWhile isWs (proxyLine upstream)
      = 'r' :: ("everse_proxy ".data ++ upstream) := by
    rw [show proxyLine upstream
        = ' ' :: ' ' :: ' ' :: ' ' :: ('r' :: ("everse_proxy ".data ++ upstream)) from rfl,
      List.dropWhile_cons_of_pos (by decide), List.dropWhile_cons_of_pos (by decide),
      List.dropWhile_cons_of_pos (by decide), List.dropWhile_cons_of_pos (by decide),
      List.dropWhile_cons_of_neg (by decide)]
  exact trim_head? h1 (by decide)

lemma trim_proxyLine_ne_startMarker (app upstream : Text) :
    trim (proxyLine upstream) ≠ startMarker app := by
  intro h
  have h2 := trim_proxyLine_head? upstream
  rw [h, startMarker_head] at h2
  simp at h2

lemma trim_proxyLine_ne_endMarker (upstream : Text) :
    trim (proxyLine upstream) ≠ endMarker := by
  intro h
  have h2 := trim_proxyLine_head? upstream
  rw [h] at h2
  exact absurd h2 (by decide)

lemma renderBlock_eq (app upstream : Text) (domains : List Text) :
    renderBlock app domains upstream
      = List.intercalate ['\n'] (blockLines app domains upstream) ++ ['\n'] := by
  simp [renderBlock, blockLines, intercalate_cons₂, intercalate_single,
    List.append_assoc]

lemma rustLines_renderBlock (app upstream : Text) (domains : List Text)
    (hclean : ∀ l ∈ blockLines app domains upstream, cleanText l) :
    rustLines (renderBlock app domains upstream)
      = blockLines app domains upstream := by
  rw [renderBlock_eq,
    show List.intercalate ['\n'] (blockLines app domains upstream) ++ ['\n']
      = List.intercalate ['\n'] (blockLines app domains upstream) ++ '\n' :: [] from rfl,
    rustLines_glue _ (by simp [blockLines])
      (fun l hl => not_newline_mem_of_clean (hclean l hl))
      (fun l hl => getLast?_ne_cr_of_clean (hclean l hl)) [],
    rustLines_nil, List.append_nil]

lemma filterLines_blockLines (app upstream : Text) (domains : List Text)
    (hS : trim (startMarker app) = startMarker app) (b : Bool) :
    filterLines app b (blockLines app domains upstream) = [] := by
  have tail : filterLines app true [proxyLine upstream, ['\x7d'], endMarker] = [] := by
    rw [filterLines_cons, if_neg (trim_proxyLine_ne_startMarker app upstream),
      if_neg (fun hc => trim_proxyLine_ne_endMarker upstream hc.2), if_pos rfl,
      filterLines_cons, if_neg (trim_rbrace ▸ rbrace_ne_startMarker app),
      if_neg (fun hc => absurd (trim_rbrace ▸ hc.2) (by decide)), if_pos rfl,
      filterLines_cons, if_neg (fun hc => endMarker_ne_startMarker app (trim_endMarker ▸ hc)),
      if_pos ⟨rfl, trim_endMarker⟩]
    rfl
  unfold blockLines
  rw [filterLines_cons, if_pos hS, filterLines_cons]
  by_cases hH : trim (hostLine domains) = startMarker app
  · rw [if_pos hH]
    exact tail
  · rw [if_neg hH, if_neg (fun hc => trim_hostLine_ne_endMarker domains hc.2), if_pos rfl]
    exact tail

/-! ### upsert_caddyfile_block structure -/

lemma upstream_clean {app rel : Text} (ha : cleanText app) (hr : cleanText rel)
    (port : Nat) : cleanText (app_container_name app rel ++ ':' :: natText port) := by
  apply cleanText_append (app_container_name_clean ha hr)
  intro c hc
  rcases List.mem_cons.mp hc with rfl | h
  · exact ⟨by decide, by decide⟩
  · exact natText_clean port c h

lemma upsert_lines (contents app upstream : Text) (domains : List Text)
    (happ : cleanText app) (hdom : ∀ d ∈ domains, cleanText d) (hu : cleanText upstream)
    (hcr : ∀ l ∈ filterLines app false (rustLines contents), l.getLast? ≠ some '\r')
    (hlast : (filterLines app false (rustLines contents)).getLast? ≠ some []) :
    rustLines (upsert_caddyfile_block contents app domains upstream)
      = filterLines app false (rustLines contents)
        ++ blockLines app domains upstream := by
  have hclean := blockLines_clean happ hdom hu
  have hnl : ∀ l ∈ filterLines app false (rustLines contents), '\n' ∉ l :=
    fun l hl => rustLines_no_newline contents l (filterLines_subset app false _ l hl)
  unfold upsert_caddyfile_block
  by_cases hf : filterLines app false (rustLines contents) = []
  · rw [hf, joinLines_nil, List.nil_append, List.nil_append,
      rustLines_renderBlock app upstream domains hclean]
  · rw [joinLines_eq _ hf hnl hlast, List.append_assoc, List.singleton_append,
      rustLines_glue _ hf hnl hcr _, rustLines_renderBlock app upstream domains hclean]

lemma upsert_route_ok (fs : ProxyFs) (app rel : Text) (domains : List Text)
    (port : Nat) (r2 : Option Text) (hd : domains ≠ []) :
    upsert_route fs app rel domains port none r2
      = (⟨some (upsert_caddyfile_block ((fs.file).getD []) app domains
            (app_container_name app rel ++ ':' :: natText port)),
          some ((fs.file).getD [])⟩, .ok) := by
  unfold upsert_route
  rw [if_neg hd]

lemma upsert_route_fail (fs : ProxyFs) (app rel : Text) (domains : List Text)
    (port : Nat) (err : Text) (r2 : Option Text) (hd : domains ≠ []) :
    upsert_route fs app rel domains port (some err) r2
      = (⟨some ((fs.file).getD []), some ((fs.file).getD [])⟩,
         match r2 with
         | none => .reloadRestored err
         | some e2 => .reloadCompound err e2) := by
  unfold upsert_route
  rw [if_neg hd]
  cases r2 <;> rfl

/-- C3: if `upsert_route` writes the new config but the reload fails, the
config file is restored byte-for-byte to the initial contents, the `.bak`
file holds the initial contents, and an error is returned; if the rollback
reload also fails the error is the compound one naming both failures. -/
theorem claim_C3_reload_failure_restores (fs : ProxyFs) (app rel : Text)
    (domains : List Text) (port : Nat) (err : Text) (reload2 : Option Text)
    (init : Text) (hfile : fs.file = some init) (hd : domains ≠ []) :
    (upsert_route fs app rel domains port (some err) reload2).1.file = some init ∧
    (upsert_route fs app rel domains port (some err) reload2).1.bak = some init ∧
    (upsert_route fs app rel domains port (some err) reload2).2 ≠ ProxyResult.ok ∧
    (reload2 = none →
      (upsert_route fs app rel domains port (some err) reload2).2
        = ProxyResult.reloadRestored err) ∧
    (∀ err2, reload2 = some err2 →
      (upsert_route fs app rel domains port (some err) reload2).2
        = ProxyResult.reloadCompound err err2) := by
  rw [upsert_route_fail fs app rel domains port err reload2 hd, hfile]
  refine ⟨rfl, rfl, ?_, ?_, ?_⟩
  · cases reload2 <;> simp
  · rintro rfl; rfl
  · rintro err2 rfl; rfl

theorem claim_C3_witness :
    (upsert_route ⟨some "x\n".data, none⟩ "a".data "r".data ["d".data] 80
        (some "boom".data) (some "bad".data)).1.file = some "x\n".data ∧
    (upsert_route ⟨some "x\n".data, none⟩ "a".data "r".data ["d".data] 80
        (some "boom".data) (some "bad".data)).2
      = ProxyResult.reloadCompound "boom".data "bad".data := by
  have h := claim_C3_reload_failure_restores ⟨some "x\n".data, none⟩ "a".data "r".data
    ["d".data] 80 "boom".data (some "bad".data) "x\n".data rfl (by decide)
  exact ⟨h.1, h.2.2.2.2 "bad".data rfl⟩

/-- C4 as frozen is false: a trailing blank line of the previous file lies
outside any managed block (there are no markers at all in `"x\n\n"`), yet it
is not preserved in the rewritten file. -/
theorem claim_C4_counterexample :
    rustLines "x\n\n".data = [['x'], []] ∧
    filterLines "a".data false (rustLines "x\n\n".data) = [['x'], []] ∧
    (upsert_route ⟨some "x\n\n".data, none⟩ "a".data "r".data ["d".data] 80
        none none).2 = ProxyResult.ok ∧
    ([] : Text) ∈ rustLines "x\n\n".data ∧
    ([] : Text) ∉ rustLines
      (((upsert_route ⟨some "x\n\n".data, none⟩ "a".data "r".data ["d".data] 80
          none none).1.file).getD []) := by
  decide

/-- C4 (amended): after a successful `upsert_route`, the new file's lines are
exactly the lines the block scan kept (every line outside the app's managed
block, in order) followed by the five lines of the freshly rendered block,
whose host line is the domains joined by `", "` and whose upstream is
`deep-app-<app>-<release>:<port>`; in particular the file contains exactly
one start-marker line for the app.  Amendments forced by the counterexample:
a trailing blank line (and a trailing `'\r'` on a kept line) is normalized
away rather than preserved, and the app name, domains and upstream must not
contain newlines, the app's start marker must be trim-stable, and the host
line must not itself be the app's start marker. -/
theorem claim_C4_amended (fs : ProxyFs) (app rel : Text) (domains : List Text)
    (port : Nat) (reload2 : Option Text) (hd : domains ≠ [])
    (happ : cleanText app) (hrel : cleanText rel)
    (hdom : ∀ d ∈ domains, cleanText d)
    (hS : trim (startMarker app) = startMarker app)
    (hH : trim (hostLine domains) ≠ startMarker app)
    (hcr : ∀ l ∈ filterLines app false (rustLines ((fs.file).getD [])),
      l.getLast? ≠ some '\r')
    (hlast : (filterLines app false (rustLines ((fs.file).getD []))).getLast?
      ≠ some []) :
    (upsert_route fs app rel domains port none reload2).2 = ProxyResult.ok ∧
    ∃ F, (upsert_route fs app rel domains port none reload2).1.file = some F ∧
      rustLines F
        = filterLines app false (rustLines ((fs.file).getD []))
          ++ blockLines app domains
              (app_container_name app rel ++ ':' :: natText port) ∧
      (rustLines F).countP (fun l => decide (trim l = startMarker app)) = 1 := by
  rw [upsert_route_ok fs app rel domains port reload2 hd]
  refine ⟨rfl, _, rfl, ?_, ?_⟩
  · exact upsert_lines _ app _ domains happ hdom
      (upstream_clean happ hrel port) hcr hlast
  · rw [upsert_lines _ app _ domains happ hdom
      (upstream_clean happ hrel port) hcr hlast, List.countP_append]
    have h1 : (filterLines app false
        (rustLines ((fs.file).getD []))).countP
          (fun l => decide (trim l = startMarker app)) = 0 := by
      rw [List.countP_eq_zero]
      intro l hl
      simpa using filterLines_no_start app false _ l hl
    have e1 : decide (trim (startMarker app) = startMarker app) = true :=
      decide_eq_true hS
    have e2 : decide (trim (hostLine domains) = startMarker app) = false :=
      decide_eq_false hH
    have e3 : decide (trim (proxyLine
        (app_container_name app rel ++ ':' :: natText port)) = startMarker app)
        = false := decide_eq_false (trim_proxyLine_ne_startMarker app _)
    have e4 : decide (trim ['\x7d'] = startMarker app) = false :=
      decide_eq_false (by rw [trim_rbrace]; exact rbrace_ne_startMarker app)
    have e5 : decide (trim endMarker = startMarker app) = false :=
      decide_eq_false (by rw [trim_endMarker]; exact endMarker_ne_startMarker app)
    have h2 : (blockLines app domains
        (app_container_name app rel ++ ':' :: natText port)).countP
          (fun l => decide (trim l = startMarker app)) = 1 := by
      unfold blockLines
      simp [List.countP_cons, List.countP_nil, e1, e2, e3, e4, e5]
    omega

theorem claim_C4_amended_witness :
    (upsert_route ⟨some "x\n".data, none⟩ "a".data "r".data ["d".data] 80
        none none).2 = ProxyResult.ok :=
  (claim_C4_amended ⟨some "x\n".data, none⟩ "a".data "r".data ["d".data] 80 none
    (by decide) (by decide) (by decide) (by decide) (by decide) (by decide)
    (by decide) (by decide)).1

/-- C5 as frozen is false: with starting contents `"\n\n"` (two blank lines,
no markers), app `a`, non-empty domains `[d]` and upstream `u`, applying the
block rewrite twice differs from applying it once. -/
theorem claim_C5_counterexample :
    upsert_caddyfile_block
        (upsert_caddyfile_block "\n\n".data "a".data ["d".data] "u".data)
        "a".data ["d".data] "u".data
      ≠ upsert_caddyfile_block "\n\n".data "a".data ["d".data] "u".data := by
  decide

/-- C5 (amended): the block rewrite is idempotent provided the app name,
domains and upstream contain no newline or carriage return, the app's start
marker is trim-stable, no kept line of the starting contents ends in a
carriage return, and the kept lines do not end with two consecutive blank
lines (the counterexample shows the rewrite collapses trailing blank lines,
so a second application can differ whenever more than one trailing blank
line survives the scan). -/
theorem claim_C5_amended (contents app upstream : Text) (domains : List Text)
    (_hd : domains ≠ [])
    (happ : cleanText app) (hdom : ∀ d ∈ domains, cleanText d)
    (hu : cleanText upstream)
    (hS : trim (startMarker app) = startMarker app)
    (hcr : ∀ l ∈ filterLines app false (rustLines contents),
      l.getLast? ≠ some '\r')
    (htb : ¬((filterLines app false (rustLines contents)).getLast? = some [] ∧
        (filterLines app false (rustLines contents)).dropLast.getLast? = some [])) :
    upsert_caddyfile_block
        (upsert_caddyfile_block contents app domains upstream) app domains upstream
      = upsert_caddyfile_block contents app domains upstream := by
  have hclean := blockLines_clean happ hdom hu
  have hnl : ∀ l ∈ filterLines app false (rustLines contents), '\n' ∉ l :=
    fun l hl => rustLines_no_newline contents l (filterLines_subset app false _ l hl)
  have hnostart := filterLines_no_start app false (rustLines contents)
  by_cases hlast : (filterLines app false (rustLines contents)).getLast? = some []
  · -- the scan keeps a trailing blank line (exactly one, by `htb`)
    have hb2 : (filterLines app false (rustLines contents)).dropLast.getLast?
        ≠ some [] := fun h => htb ⟨hlast, h⟩
    have hxs : (filterLines app false (rustLines contents)).dropLast ++ [[]]
        = filterLines app false (rustLines contents) :=
      List.dropLast_append_getLast? [] (by rw [hlast]; rfl)
    by_cases hxsnil : (filterLines app false (rustLines contents)).dropLast = []
    · -- the kept lines are exactly one blank line
      have hfl : filterLines app false (rustLines contents) = [[]] := by
        rw [← hxs, hxsnil]; rfl
      have hinner : upsert_caddyfile_block contents app domains upstream
          = renderBlock app domains upstream := by
        rw [upsert_caddyfile_block, hfl, show joinLines [[]] = [] from by decide,
          List.nil_append]
      rw [hinner, upsert_caddyfile_block,
        rustLines_renderBlock app upstream domains hclean,
        filterLines_blockLines app upstream domains hS false, joinLines_nil,
        List.nil_append]
    · -- at least one non-blank kept line before the single trailing blank
      have hinner : upsert_caddyfile_block contents app domains upstream
          = List.intercalate ['\n']
              ((filterLines app false (rustLines contents)).dropLast)
            ++ '\n' :: renderBlock app domains upstream := by
        conv_lhs => rw [upsert_caddyfile_block, ← hxs, joinLines_concat_nil _ hxsnil]
        rw [List.append_assoc, List.singleton_append]
      have hdl_mem : ∀ l ∈ (filterLines app false (rustLines contents)).dropLast,
          l ∈ filterLines app false (rustLines contents) :=
        fun l hl => (List.dropLast_sublist _).mem hl
      have hlines : rustLines (upsert_caddyfile_block contents app domains upstream)
          = (filterLines app false (rustLines contents)).dropLast
            ++ blockLines app domains upstream := by
        rw [hinner, rustLines_glue _ hxsnil
          (fun l hl => hnl l (hdl_mem l hl)) (fun l hl => hcr l (hdl_mem l hl)) _,
          rustLines_renderBlock app upstream domains hclean]
      conv_lhs => rw [upsert_caddyfile_block]
      rw [hlines, filterLines_append_of_no_start app _ _
          (fun l hl => hnostart l (hdl_mem l hl)),
        filterLines_blockLines app upstream domains hS false, List.append_nil,
        joinLines_eq _ hxsnil (fun l hl => hnl l (hdl_mem l hl)) hb2,
        List.append_assoc, List.singleton_append, ← hinner]
  · -- no trailing blank kept line
    by_cases hf : filterLines app false (rustLines contents) = []
    · have hinner : upsert_caddyfile_block contents app domains upstream
          = renderBlock app domains upstream := by
        rw [upsert_caddyfile_block, hf, joinLines_nil, List.nil_append]
      conv_lhs => rw [upsert_caddyfile_block]
      rw [hinner, rustLines_renderBlock app upstream domains hclean,
        filterLines_blockLines app upstream domains hS false, joinLines_nil,
        List.nil_append]
    · have hinner : upsert_caddyfile_block contents app domains upstream
          = List.intercalate ['\n'] (filterLines app false (rustLines contents))
            ++ '\n' :: renderBlock app domains upstream := by
        rw [upsert_caddyfile_block, joinLines_eq _ hf hnl hlast,
          List.append_assoc, List.singleton_append]
      have hlines : rustLines (upsert_caddyfile_block contents app domains upstream)
          = filterLines app false (rustLines contents)
            ++ blockLines app domains upstream := by
        rw [hinner, rustLines_glue _ hf hnl hcr _,
          rustLines_renderBlock app upstream domains hclean]
      conv_lhs => rw [upsert_caddyfile_block]
      rw [hlines, filterLines_append_of_no_start app _ _ hnostart,
        filterLines_blockLines app upstream domains hS false, List.append_nil,
        joinLines_eq _ hf hnl hlast, List.append_assoc, List.singleton_append,
        ← hinner]

theorem claim_C5_amended_witness :
    upsert_caddyfile_block
        (upsert_caddyfile_block "x\n".data "a".data ["d".data] "u".data)
        "a".data ["d".data] "u".data
      = upsert_caddyfile_block "x\n".data "a".data ["d".data] "u".data :=
  claim_C5_amended "x\n".data "a".data "u".data ["d".data] (by decide) (by decide)
    (by decide) (by decide) (by decide) (by decide) (by decide)

/-! ### Catalog model (`src/db.rs`)

The SQLite tables are modelled as lists of rows; `id` columns are primary
keys, so row updates by id are modelled as a map over the list.  Timestamps
and columns no claim depends on are omitted. -/

/-- A row of `releases` (id, app_id, status; snapshot columns omitted). -/
structure ReleaseR where
  id : String
  app_id : String
  status : String
deriving DecidableEq

/-- A row of `deployments`. -/
structure DeploymentR where
  id : String
  app_id : String
  from_release : Option String
  to_release : Option String
  status : String
  error : Option String
deriving DecidableEq

/-- The catalog: `releases`, `current_releases` (app_id → release_id),
`deployments` and `events`. -/
structure Db where
  releases : List ReleaseR
  current : List (String × String)
  deployments : List DeploymentR
  events : List (String × String)
deriving DecidableEq

/-- Keyed lookup in an association list (first match; keys are unique). -/
def lookup (m : List (String × String)) (k : String) : Option String :=
  (m.find? (fun p => p.1 = k)).map (fun p => p.2)

/-- `Storage::current_release_id`. -/
def current_release_id (db : Db) (app_id : String) : Option String :=
  lookup db.current app_id

/-- `Storage::set_current_release`: SQL upsert on `current_releases`. -/
def set_current_release (db : Db) (app_id release_id : String) : Db :=
  { db with current :=
      if db.current.any (fun p => p.1 = app_id) then
        db.current.map (fun p => if p.1 = app_id then (app_id, release_id) else p)
      else db.current ++ [(app_id, release_id)] }

/-- `Storage::insert_release`. -/
def insert_release (db : Db) (r : ReleaseR) : Db :=
  { db with releases := db.releases ++ [r] }

/-- `Storage::set_release_status`: `UPDATE releases SET status WHERE id`. -/
def set_release_status (db : Db) (release_id status : String) : Db :=
  let rs := db.releases.map
    (fun r => if r.id = release_id then { r with status := status } else r)
  { db with releases := rs }

/-- `Storage::get_release_by_id`. -/
def get_release_by_id (db : Db) (release_id : String) : Option ReleaseR :=
  db.releases.find? (fun r => r.id = release_id)

/-- `Storage::insert_deployment`. -/
def insert_deployment (db : Db) (d : DeploymentR) : Db :=
  { db with deployments := db.deployments ++ [d] }

/-- `Storage::update_deployment_status`. -/
def update_deployment_status (db : Db) (deployment_id status : String)
    (error : Option String) : Db :=
  let ds := db.deployments.map
    (fun d => if d.id = deployment_id then { d with status := status, error := error }
      else d)
  { db with deployments := ds }

/-- `Storage::insert_event` (used by `record_proxy_error`). -/
def insert_event (db : Db) (kind payload : String) : Db :=
  { db with events := db.events ++ [(kind, payload)] }

/-! ### Release orchestrator (`src/cli/deploy.rs`)

`handle_deploy` after image/snapshot resolution and `handle_rollback` after
the dry-run check.  The external steps (start the unit, health check, proxy
upsert) are modelled by their outcomes (`none` = success, `some e` = failure
with error `e`); `stop_app_release` and retention touch no catalog row that
these claims mention (retention is modelled separately by
`enforce_retention`). -/

def handle_deploy (db : Db) (app_id release_id deployment_id : String)
    (record_only skip_proxy : Bool)
    (startRes healthRes proxyRes : Option String) : Db × Option String :=
  let from_release := current_release_id db app_id
  let db := insert_release db
    { id := release_id, app_id := app_id, status := "pending" }
  let db := insert_deployment db
    { id := deployment_id, app_id := app_id, from_release := from_release,
      to_release := some release_id, status := "pending", error := none }
  if record_only then
    let db := set_current_release db app_id release_id
    let db := set_release_status db release_id "active"
    let db := update_deployment_status db deployment_id "succeeded" none
    (db, none)
  else
    match startRes with
    | some e =>
      let db := set_release_status db release_id "failed"
      let db := update_deployment_status db deployment_id "failed" (some e)
      (db, some e)
    | none =>
      match healthRes with
      | some e =>
        let db := set_release_status db release_id "failed"
        let db := update_deployment_status db deployment_id "failed" (some e)
        (db, some e)
      | none =>
        match (if skip_proxy then none else proxyRes) with
        | some e =>
          let db := set_release_status db release_id "failed"
          let db := update_deployment_status db deployment_id "failed" (some e)
          let db := insert_event db "proxy_error" e
          (db, some e)
        | none =>
          let db := set_current_release db app_id release_id
          let db := set_release_status db release_id "active"
          let db := update_deployment_status db deployment_id "succeeded" none
          (db, none)

def handle_rollback_core (db : Db) (app_id target deployment_id : String)
    (found : Option ReleaseR) (startRes healthRes proxyRes : Option String) :
    Db × Option String :=
  match found with
  | none => (db, some "release not found")
  | some rel =>
    if rel.app_id ≠ app_id then (db, some "release does not belong to app")
    else
      let from_release := current_release_id db app_id
      let db := insert_deployment db
        { id := deployment_id, app_id := app_id, from_release := from_release,
          to_release := some target, status := "pending", error := none }
      match startRes with
      | some e => (update_deployment_status db deployment_id "failed" (some e), some e)
      | none =>
        match healthRes with
        | some e => (update_deployment_status db deployment_id "failed" (some e), some e)
        | none =>
          match proxyRes with
          | some e =>
            let db := update_deployment_status db deployment_id "failed" (some e)
            let db := insert_event db "proxy_error" e
            (db, some e)
          | none =>
            let db := set_current_release db app_id target
            let db := set_release_status db target "active"
            let db := update_deployment_status db deployment_id "succeeded" none
            (db, none)

def handle_rollback (db : Db) (app_id target deployment_id : String)
    (startRes healthRes proxyRes : Option String) : Db × Option String :=
  handle_rollback_core db app_id target deployment_id
    (get_release_by_id db target) startRes healthRes proxyRes

/-! ### Retention (`enforce_retention` in `src/cli/deploy.rs`) -/

/-- The `keep` set construction: walk releases newest-first, stop once the
set holds `retain` ids (`HashSet` modelled as a duplicate-free list). -/
def buildKeep (retain : Nat) : List String → List ReleaseR → List String
  | keep, [] => keep
  | keep, rel :: rest =>
    if retain ≤ keep.length then keep
    else buildKeep retain (if keep.contains rel.id then keep else keep ++ [rel.id]) rest

/-- `enforce_retention`, returning the releases that survive pruning.
`releases` is the app's release list newest-first (`list_releases`), and
`current` the current release id. -/
def enforce_retention (retain : Nat) (current : Option String)
    (releases : List ReleaseR) : List ReleaseR :=
  let r := max retain 1
  if releases.length ≤ r then releases
  else
    let keep0 := match current with
      | some c => [c]
      | none => []
    let keep := buildKeep r keep0 releases
    releases.filter (fun rel => keep.contains rel.id)

/-! ### Projection lemmas for the catalog operations -/

lemma current_insert_release (db : Db) (r : ReleaseR) :
    (insert_release db r).current = db.current := rfl

lemma current_insert_deployment (db : Db) (d : DeploymentR) :
    (insert_deployment db d).current = db.current := rfl

lemma current_set_release_status (db : Db) (rid st : String) :
    (set_release_status db rid st).current = db.current := rfl

lemma current_update_deployment_status (db : Db) (did st : String) (e : Option String) :
    (update_deployment_status db did st e).current = db.current := rfl

lemma current_insert_event (db : Db) (k p : String) :
    (insert_event db k p).current = db.current := rfl

lemma releases_insert_release (db : Db) (r : ReleaseR) :
    (insert_release db r).releases = db.releases ++ [r] := rfl

lemma releases_insert_deployment (db : Db) (d : DeploymentR) :
    (insert_deployment db d).releases = db.releases := rfl

lemma releases_set_current_release (db : Db) (a rid : String) :
    (set_current_release db a rid).releases = db.releases := rfl

lemma releases_set_release_status (db : Db) (rid st : String) :
    (set_release_status db rid st).releases
      = db.releases.map
          (fun r => if r.id = rid then { r with status := st } else r) := rfl

lemma releases_update_deployment_status (db : Db) (did st : String)
    (e : Option String) :
    (update_deployment_status db did st e).releases = db.releases := rfl

lemma releases_insert_event (db : Db) (k p : String) :
    (insert_event db k p).releases = db.releases := rfl

/-! ### C1: failed deploys do not advance the current release -/

/-- C1: a deploy (not record-only) that fails while starting the unit, at
the health check, or at the proxy upsert returns an error and leaves the
app's current-release mapping exactly as it was: `set_current_release` is
only reached after all three steps succeed. -/
theorem claim_C1_failed_deploy_preserves_current (db : Db)
    (app_id release_id deployment_id : String) (skip_proxy : Bool)
    (startRes healthRes proxyRes : Option String)
    (hfail : startRes ≠ none ∨ healthRes ≠ none ∨
      (skip_proxy = false ∧ proxyRes ≠ none)) :
    current_release_id (handle_deploy db app_id release_id deployment_id false
        skip_proxy startRes healthRes proxyRes).1 app_id
      = current_release_id db app_id ∧
    (handle_deploy db app_id release_id deployment_id false skip_proxy
        startRes healthRes proxyRes).2 ≠ none := by
  cases startRes with
  | some e =>
    refine ⟨?_, by simp [handle_deploy]⟩
    simp [handle_deploy, current_release_id, current_update_deployment_status,
      current_set_release_status, current_insert_deployment, current_insert_release]
  | none =>
    cases healthRes with
    | some e =>
      refine ⟨?_, by simp [handle_deploy]⟩
      simp [handle_deploy, current_release_id, current_update_deployment_status,
        current_set_release_status, current_insert_deployment, current_insert_release]
    | none =>
      obtain ⟨hsp, hp⟩ : skip_proxy = false ∧ proxyRes ≠ none := by
        rcases hfail with h | h | h
        · exact absurd rfl h
        · exact absurd rfl h
        · exact h
      obtain ⟨e, rfl⟩ := Option.ne_none_iff_exists'.mp hp
      subst hsp
      refine ⟨?_, by simp [handle_deploy]⟩
      simp [handle_deploy, current_release_id, current_insert_event,
        current_update_deployment_status, current_set_release_status,
        current_insert_deployment, current_insert_release]

theorem claim_C1_witness :
    current_release_id (handle_deploy
        ⟨[⟨"r0", "a", "active"⟩], [("a", "r0")], [], []⟩
        "a" "r1" "d1" false false (some "boom") none none).1 "a" = some "r0" :=
  ((claim_C1_failed_deploy_preserves_current
      ⟨[⟨"r0", "a", "active"⟩], [("a", "r0")], [], []⟩
      "a" "r1" "d1" false (some "boom") none none
      (Or.inl (by simp))).1).trans (by rfl)

/-! ### C6: status transition monotonicity -/

/-- C6 fails as stated: `failed` is not terminal.  `handle_rollback` checks
only that the target release exists and belongs to the app, so rolling back
to a `failed` release and succeeding sets its status to `active`. -/
theorem claim_C6_counterexample :
    (get_release_by_id (⟨[⟨"r1", "a", "failed"⟩], [], [], []⟩ : Db) "r1").map
        ReleaseR.status = some "failed" ∧
    (get_release_by_id (handle_rollback ⟨[⟨"r1", "a", "failed"⟩], [], [], []⟩
        "a" "r1" "d1" none none none).1 "r1").map ReleaseR.status
      = some "active" := by
  constructor <;> rfl

lemma map_status_fresh (rs : List ReleaseR) (rid st : String)
    (hfresh : ∀ r ∈ rs, r.id ≠ rid) :
    rs.map (fun r => if r.id = rid then { r with status := st } else r) = rs :=
  (List.map_congr_left (fun r hr => if_neg (hfresh r hr))).trans (List.map_id rs)

/-- C6 (amended): status transitions are monotone except through rollback:
a deploy creates its release as `pending` and finalizes it to `active` or
`failed` without touching any other release's status (so no release ever
returns to `pending`), and a rollback changes statuses only when it
succeeds, and then only by setting its explicit target release to `active`
— which re-activates the target even if its status was `failed`. -/
theorem claim_C6_amended (db : Db) (app_id release_id deployment_id : String)
    (record_only skip_proxy : Bool) (s h p : Option String) :
    ((∀ r ∈ db.releases, r.id ≠ release_id) →
      ∃ st, (st = "active" ∨ st = "failed") ∧
        (handle_deploy db app_id release_id deployment_id record_only skip_proxy
            s h p).1.releases
          = db.releases
            ++ [({ id := release_id, app_id := app_id, status := st } : ReleaseR)]) ∧
    ((handle_rollback db app_id release_id deployment_id s h p).2 = none →
      (handle_rollback db app_id release_id deployment_id s h p).1.releases
        = db.releases.map
            (fun r => if r.id = release_id then { r with status := "active" }
              else r)) ∧
    ((handle_rollback db app_id release_id deployment_id s h p).2 ≠ none →
      (handle_rollback db app_id release_id deployment_id s h p).1.releases
        = db.releases) := by
  refine ⟨?_, ?_⟩
  · intro hfresh
    have hmap : ∀ st : String,
        (db.releases
            ++ [({ id := release_id, app_id := app_id, status := "pending" } : ReleaseR)]).map
          (fun r => if r.id = release_id then { r with status := st } else r)
          = db.releases
            ++ [({ id := release_id, app_id := app_id, status := st } : ReleaseR)] := by
      intro st
      rw [List.map_append, map_status_fresh _ _ _ hfresh]
      simp
    by_cases hro : record_only
    · subst hro
      refine ⟨"active", Or.inl rfl, ?_⟩
      have hr : (handle_deploy db app_id release_id deployment_id true skip_proxy
          s h p).1.releases
          = (db.releases
              ++ [({ id := release_id, app_id := app_id, status := "pending" } : ReleaseR)]).map
            (fun r => if r.id = release_id then { r with status := "active" } else r) := rfl
      rw [hr, hmap]
    · rw [Bool.not_eq_true] at hro
      subst hro
      cases s with
      | some e =>
        refine ⟨"failed", Or.inr rfl, ?_⟩
        have hr : (handle_deploy db app_id release_id deployment_id false skip_proxy
            (some e) h p).1.releases
            = (db.releases
                ++ [({ id := release_id, app_id := app_id, status := "pending" } : ReleaseR)]).map
              (fun r => if r.id = release_id then { r with status := "failed" } else r) := rfl
        rw [hr, hmap]
      | none =>
        cases h with
        | some e =>
          refine ⟨"failed", Or.inr rfl, ?_⟩
          have hr : (handle_deploy db app_id release_id deployment_id false skip_proxy
              none (some e) p).1.releases
              = (db.releases
                  ++ [({ id := release_id, app_id := app_id, status := "pending" } : ReleaseR)]).map
                (fun r => if r.id = release_id then { r with status := "failed" } else r) := rfl
          rw [hr, hmap]
        | none =>
          by_cases hskip : skip_proxy
          · subst hskip
            refine ⟨"active", Or.inl rfl, ?_⟩
            have hr : (handle_deploy db app_id release_id deployment_id false true
                none none p).1.releases
                = (db.releases
                    ++ [({ id := release_id, app_id := app_id, status := "pending" } : ReleaseR)]).map
                  (fun r => if r.id = release_id then { r with status := "active" } else r) := rfl
            rw [hr, hmap]
          · rw [Bool.not_eq_true] at hskip
            subst hskip
            cases p with
            | some e =>
              refine ⟨"failed", Or.inr rfl, ?_⟩
              have hr : (handle_deploy db app_id release_id deployment_id false false
                  none none (some e)).1.releases
                  = (db.releases
                      ++ [({ id := release_id, app_id := app_id, status := "pending" } : ReleaseR)]).map
                    (fun r => if r.id = release_id then { r with status := "failed" } else r) := rfl
              rw [hr, hmap]
            | none =>
              refine ⟨"active", Or.inl rfl, ?_⟩
              have hr : (handle_deploy db app_id release_id deployment_id false false
                  none none none).1.releases
                  = (db.releases
                      ++ [({ id := release_id, app_id := app_id, status := "pending" } : ReleaseR)]).map
                    (fun r => if r.id = release_id then { r with status := "active" } else r) := rfl
              rw [hr, hmap]
  · cases hfind : get_release_by_id db release_id with
    | none =>
      have hr : handle_rollback db app_id release_id deployment_id s h p
          = (db, some "release not found") := by
        unfold handle_rollback
        rw [hfind]
        rfl
      rw [hr]
      exact ⟨fun h2 => Option.noConfusion h2, fun _ => rfl⟩
    | some rel =>
      have hcore : handle_rollback db app_id release_id deployment_id s h p
          = handle_rollback_core db app_id release_id deployment_id (some rel) s h p := by
        unfold handle_rollback
        rw [hfind]
      by_cases happ : rel.app_id = app_id
      · cases s with
        | some e =>
          have hr : handle_rollback db app_id release_id deployment_id (some e) h p
              = (update_deployment_status (insert_deployment db
                  { id := deployment_id, app_id := app_id,
                    from_release := current_release_id db app_id,
                    to_release := some release_id, status := "pending", error := none })
                  deployment_id "failed" (some e), some e) := by
            rw [hcore]
            exact if_neg (by simp [happ])
          rw [hr]
          exact ⟨fun h2 => Option.noConfusion h2, fun _ => rfl⟩
        | none =>
          cases h with
          | some e =>
            have hr : handle_rollback db app_id release_id deployment_id none (some e) p
                = (update_deployment_status (insert_deployment db
                    { id := deployment_id, app_id := app_id,
                      from_release := current_release_id db app_id,
                      to_release := some release_id, status := "pending", error := none })
                    deployment_id "failed" (some e), some e) := by
              rw [hcore]
              exact if_neg (by simp [happ])
            rw [hr]
            exact ⟨fun h2 => Option.noConfusion h2, fun _ => rfl⟩
          | none =>
            cases p with
            | some e =>
              have hr : handle_rollback db app_id release_id deployment_id none none (some e)
                  = (insert_event (update_deployment_status (insert_deployment db
                      { id := deployment_id, app_id := app_id,
                        from_release := current_release_id db app_id,
                        to_release := some release_id, status := "pending", error := none })
                      deployment_id "failed" (some e)) "proxy_error" e, some e) := by
                rw [hcore]
                exact if_neg (by simp [happ])
              rw [hr]
              exact ⟨fun h2 => Option.noConfusion h2, fun _ => rfl⟩
            | none =>
              have hr : handle_rollback db app_id release_id deployment_id none none none
                  = (update_deployment_status (set_release_status (set_current_release
                      (insert_deployment db
                        { id := deployment_id, app_id := app_id,
                          from_release := current_release_id db app_id,
                          to_release := some release_id, status := "pending", error := none })
                      app_id release_id) release_id "active") deployment_id "succeeded" none,
                    none) := by
                rw [hcore]
                exact if_neg (by simp [happ])
              rw [hr]
              exact ⟨fun _ => rfl, fun hne => absurd rfl hne⟩
      · have hr : handle_rollback db app_id release_id deployment_id s h p
            = (db, some "release does not belong to app") := by
          rw [hcore]
          exact if_pos (by simp [happ])
        rw [hr]
        exact ⟨fun h2 => Option.noConfusion h2, fun _ => rfl⟩

theorem claim_C6_amended_witness :
    (handle_rollback (⟨[⟨"r1", "a", "failed"⟩], [], [], []⟩ : Db)
        "a" "r1" "d1" none none none).1.releases = [⟨"r1", "a", "active"⟩] := by
  have hw := (claim_C6_amended ⟨[⟨"r1", "a", "failed"⟩], [], [], []⟩
    "a" "r1" "d1" false false none none none).2.1 (by rfl)
  rw [hw]
  rfl

/-! ### C2: retention bound -/

lemma buildKeep_nil (retain : Nat) (keep : List String) :
    buildKeep retain keep [] = keep := rfl

lemma buildKeep_cons (retain : Nat) (keep : List String) (rel : ReleaseR)
    (rest : List ReleaseR) :
    buildKeep retain keep (rel :: rest)
      = if retain ≤ keep.length then keep
        else buildKeep retain
          (if keep.contains rel.id then keep else keep ++ [rel.id]) rest := rfl

lemma buildKeep_length_le (retain : Nat) :
    ∀ (rels : List ReleaseR) (keep : List String), keep.length ≤ retain →
      (buildKeep retain keep rels).length ≤ retain := by
  intro rels
  induction rels with
  | nil => intro keep hk; rwa [buildKeep_nil]
  | cons rel rest ih =>
    intro keep hk
    rw [buildKeep_cons]
    by_cases hc : retain ≤ keep.length
    · rwa [if_pos hc]
    · rw [if_neg hc]
      apply ih
      by_cases hm : keep.contains rel.id
      · rwa [if_pos hm]
      · rw [if_neg hm, List.length_append]
        simp only [List.length_singleton]
        omega

lemma buildKeep_mem (retain : Nat) :
    ∀ (rels : List ReleaseR) (keep : List String) (c : String), c ∈ keep →
      c ∈ buildKeep retain keep rels := by
  intro rels
  induction rels with
  | nil => intro keep c hc; rwa [buildKeep_nil]
  | cons rel rest ih =>
    intro keep c hc
    rw [buildKeep_cons]
    by_cases h1 : retain ≤ keep.length
    · rwa [if_pos h1]
    · rw [if_neg h1]
      apply ih
      by_cases hm : keep.contains rel.id
      · rwa [if_pos hm]
      · rw [if_neg hm]
        exact List.mem_append.mpr (Or.inl hc)

lemma contains_iff_mem {l : List String} {a : String} :
    l.contains a = true ↔ a ∈ l := by
  rw [List.contains_iff_exists_mem_beq]
  constructor
  · rintro ⟨b, hb, hab⟩
    exact (beq_iff_eq.mp hab) ▸ hb
  · intro ha
    exact ⟨a, ha, beq_self_eq_true a⟩

lemma retention_filter_bound (keep : List String) (releases : List ReleaseR)
    (hnodup : (releases.map ReleaseR.id).Nodup) :
    (releases.filter (fun rel => keep.contains rel.id)).length ≤ keep.length := by
  have hsub : List.Sublist
      ((releases.filter (fun rel => keep.contains rel.id)).map ReleaseR.id)
      (releases.map ReleaseR.id) := (List.filter_sublist _).map _
  have hnd := List.Nodup.sublist hsub hnodup
  have hmem : ∀ x ∈ (releases.filter (fun rel => keep.contains rel.id)).map
      ReleaseR.id, x ∈ keep := by
    intro x hx
    obtain ⟨rel, hrel, rfl⟩ := List.mem_map.mp hx
    exact contains_iff_mem.mp (List.mem_filter.mp hrel).2
  have hfin : ((releases.filter (fun rel => keep.contains rel.id)).map
      ReleaseR.id).toFinset ⊆ keep.toFinset := fun x hx =>
    List.mem_toFinset.mpr (hmem x (List.mem_toFinset.mp hx))
  have hcard := Finset.card_le_card hfin
  have h1 := List.toFinset_card_of_nodup hnd
  have h2 := List.toFinset_card_le keep
  have h3 : ((releases.filter (fun rel => keep.contains rel.id)).map
      ReleaseR.id).length = (releases.filter (fun rel => keep.contains rel.id)).length :=
    List.length_map _ _
  omega

/-- C2: after `enforce_retention` with configured `retain = k`, at most
`max k 1` releases survive, and the current release (which exists among the
app's releases after a successful deploy or rollback) is never pruned. -/
theorem claim_C2_retention (retain : Nat) (current : Option String)
    (releases : List ReleaseR)
    (hnodup : (releases.map ReleaseR.id).Nodup) :
    (enforce_retention retain current releases).length ≤ max retain 1 ∧
    ∀ c, current = some c → c ∈ releases.map ReleaseR.id →
      c ∈ (enforce_retention retain current releases).map ReleaseR.id := by
  unfold enforce_retention
  by_cases hlen : releases.length ≤ max retain 1
  · rw [if_pos hlen]
    exact ⟨hlen, fun c _ hc => hc⟩
  · rw [if_neg hlen]
    constructor
    · apply le_trans (retention_filter_bound _ releases hnodup)
      apply buildKeep_length_le
      cases current with
      | none => simp
      | some c => simp
    · intro c hcur hc
      subst hcur
      have hkeep : c ∈ buildKeep (max retain 1) [c] releases :=
        buildKeep_mem _ releases [c] c (by simp)
      obtain ⟨rel, hrel, hrelid⟩ := List.mem_map.mp hc
      refine List.mem_map.mpr ⟨rel, List.mem_filter.mpr ⟨hrel, ?_⟩, hrelid⟩
      exact contains_iff_mem.mpr (hrelid.symm ▸ hkeep)

theorem claim_C2_retention_witness :
    (enforce_retention 2 (some "r3")
        [⟨"r3", "a", "active"⟩, ⟨"r2", "a", "active"⟩, ⟨"r1", "a", "active"⟩]).length
      ≤ 2 ∧
    "r3" ∈ (enforce_retention 2 (some "r3")
        [⟨"r3", "a", "active"⟩, ⟨"r2", "a", "active"⟩,
          ⟨"r1", "a", "active"⟩]).map ReleaseR.id := by
  have h := claim_C2_retention 2 (some "r3")
    [⟨"r3", "a", "active"⟩, ⟨"r2", "a", "active"⟩, ⟨"r1", "a", "active"⟩]
    (by decide)
  exact ⟨h.1, h.2 "r3" rfl (by decide)⟩

/-! ### Image ref and git sha resolution (`src/cli/deploy.rs`) -/

/-- Rust `value.trim().is_empty()`. -/
def blank (s : String) : Bool := (trim s.data).isEmpty

/-- The `[deploy]` fields `resolve_image_ref` consults (`image_prefix` is
named `imagePre` here for the source field `image_prefix`). -/
structure DeployCfg where
  image : Option String
  imagePre : Option String
  tag_strategy : Option String

/-- The part of `resolve_image_ref` after the CLI argument check. -/
def resolve_image_ref_cfg (dep : DeployCfg) (git_sha : String) :
    Except String String :=
  match dep.image with
  | some image => .ok image
  | none =>
    match dep.imagePre with
    | some pre =>
      let strategy := dep.tag_strategy.getD "git_sha"
      if strategy = "git_sha" then .ok (pre ++ ":" ++ git_sha)
      else if strategy = "latest" then .ok (pre ++ ":" ++ "latest")
      else .error ("unknown tag_strategy " ++ strategy)
    | none =>
      .error "image ref required (pass --image or set [deploy].image or [deploy].image_prefix)"

/-- `resolve_image_ref`: CLI argument (unless blank) > snapshot image >
prefix with tag strategy > error. -/
def resolve_image_ref (input : Option String) (dep : DeployCfg)
    (git_sha : String) : Except String String :=
  match input with
  | some value =>
    if ¬blank value then .ok value else resolve_image_ref_cfg dep git_sha
  | none => resolve_image_ref_cfg dep git_sha

/-- `str::split_once`: split at the first occurrence of `c`. -/
def splitOnceAt (c : Char) : Text → Option (Text × Text)
  | [] => none
  | x :: xs =>
    if x = c then some ([], xs)
    else (splitOnceAt c xs).map (fun p => (x :: p.1, p.2))

/-- `str::rfind`: index of the last occurrence of `c`. -/
def lastIdxOf (c : Char) : Text → Option Nat
  | [] => none
  | x :: xs =>
    match lastIdxOf c xs with
    | some i => some (i + 1)
    | none => if x = c then some 0 else none

/-- `extract_image_tag`: the digest after `'@'` if present, else the part
after the last `':'` that follows the last `'/'` (indices are
character-based; the source uses byte indices, equivalent for this scan). -/
def extract_image_tag (image_ref : String) : Option String :=
  let s := image_ref.data
  match splitOnceAt '@' s with
  | some (_, digest) => some (String.mk digest)
  | none =>
    let lastSlash := (lastIdxOf '/' s).getD 0
    let t := s.drop lastSlash
    match lastIdxOf ':' t with
    | some idx =>
      let tag := s.drop (lastSlash + idx + 1)
      if tag ≠ [] then some (String.mk tag) else none
    | none => none

/-- The part of `resolve_git_sha` after the CLI argument check. -/
def resolve_git_sha_rest (base : Option String) (image_ref : String) : String :=
  match base with
  | some value =>
    if value ≠ "unknown" then value
    else (extract_image_tag image_ref).getD "unknown"
  | none => (extract_image_tag image_ref).getD "unknown"

/-- `resolve_git_sha`: CLI argument (unless blank) > resolved base (unless
`"unknown"`) > image tag > `"unknown"`. -/
def resolve_git_sha (input base : Option String) (image_ref : String) : String :=
  match input with
  | some value =>
    if ¬blank value then value else resolve_git_sha_rest base image_ref
  | none => resolve_git_sha_rest base image_ref

/-- C7: `resolve_image_ref` resolves with priority: a non-blank CLI image
wins; otherwise `snapshot.deploy.image`; otherwise, with `image_prefix`
set, `<prefix>:<git-sha>` under strategy `git_sha` (the default), the
literal tag `latest` under strategy `latest`, and an error for any other
strategy; with none of these sources available it fails. -/
theorem claim_C7_image_ref_priority (dep : DeployCfg) (sha : String) :
    (∀ v, blank v = false → resolve_image_ref (some v) dep sha = .ok v) ∧
    (∀ img, dep.image = some img → resolve_image_ref none dep sha = .ok img) ∧
    (dep.image = none → ∀ pre, dep.imagePre = some pre →
      (dep.tag_strategy.getD "git_sha" = "git_sha" →
        resolve_image_ref none dep sha = .ok (pre ++ ":" ++ sha)) ∧
      (dep.tag_strategy.getD "git_sha" = "latest" →
        resolve_image_ref none dep sha = .ok (pre ++ ":" ++ "latest")) ∧
      (dep.tag_strategy.getD "git_sha" ≠ "git_sha" →
        dep.tag_strategy.getD "git_sha" ≠ "latest" →
        resolve_image_ref none dep sha
          = .error ("unknown tag_strategy " ++ dep.tag_strategy.getD "git_sha"))) ∧
    (dep.image = none → dep.imagePre = none →
      ∃ e, resolve_image_ref none dep sha = .error e) := by
  refine ⟨?_, ?_, ?_, ?_⟩
  · intro v hv
    simp [resolve_image_ref, hv]
  · intro img himg
    simp [resolve_image_ref, resolve_image_ref_cfg, himg]
  · intro himg pre hpre
    refine ⟨?_, ?_, ?_⟩
    · intro hstrat
      simp [resolve_image_ref, resolve_image_ref_cfg, himg, hpre, hstrat]
    · intro hstrat
      simp [resolve_image_ref, resolve_image_ref_cfg, himg, hpre, hstrat]
    · intro h1 h2
      simp [resolve_image_ref, resolve_image_ref_cfg, himg, hpre, h1, h2]
  · intro h1 h2
    exact ⟨"image ref required (pass --image or set [deploy].image or [deploy].image_prefix)",
      by simp [resolve_image_ref, resolve_image_ref_cfg, h1, h2]⟩

theorem claim_C7_witness :
    resolve_image_ref none ⟨none, some "ghcr.io/me/app", none⟩ "deadbeef"
      = .ok ("ghcr.io/me/app" ++ ":" ++ "deadbeef") ∧
    resolve_image_ref none ⟨none, some "ghcr.io/me/app", some "latest"⟩ "deadbeef"
      = .ok ("ghcr.io/me/app" ++ ":" ++ "latest") ∧
    resolve_image_ref none ⟨none, some "ghcr.io/me/app", some "bogus"⟩ "deadbeef"
      = .error ("unknown tag_strategy " ++ "bogus") ∧
    resolve_image_ref (some "img:1") ⟨some "other", none, none⟩ "deadbeef"
      = .ok "img:1" := by
  refine ⟨?_, ?_, ?_, ?_⟩
  · exact ((claim_C7_image_ref_priority ⟨none, some "ghcr.io/me/app", none⟩
      "deadbeef").2.2.1 rfl "ghcr.io/me/app" rfl).1 rfl
  · exact ((claim_C7_image_ref_priority ⟨none, some "ghcr.io/me/app", some "latest"⟩
      "deadbeef").2.2.1 rfl "ghcr.io/me/app" rfl).2.1 rfl
  · exact ((claim_C7_image_ref_priority ⟨none, some "ghcr.io/me/app", some "bogus"⟩
      "deadbeef").2.2.1 rfl "ghcr.io/me/app" rfl).2.2 (by decide) (by decide)
  · exact (claim_C7_image_ref_priority ⟨some "other", none, none⟩ "deadbeef").1
      "img:1" (by decide)

/-- C10: a blank (empty or whitespace-only) CLI-supplied image or git-sha is
treated as absent: both resolvers fall through to the same result as with no
CLI argument at all. -/
theorem claim_C10_blank_cli_falls_through (v : String) (hv : blank v = true) :
    (∀ dep sha, resolve_image_ref (some v) dep sha
      = resolve_image_ref none dep sha) ∧
    (∀ base ref, resolve_git_sha (some v) base ref
      = resolve_git_sha none base ref) := by
  constructor
  · intro dep sha
    simp [resolve_image_ref, hv]
  · intro base ref
    simp [resolve_git_sha, hv]

theorem claim_C10_witness :
    resolve_image_ref (some "  ") ⟨some "cfg-img", none, none⟩ "sha"
      = resolve_image_ref none ⟨some "cfg-img", none, none⟩ "sha" ∧
    resolve_git_sha (some "  ") (some "abc123") "img:tag"
      = resolve_git_sha none (some "abc123") "img:tag" :=
  ⟨(claim_C10_blank_cli_falls_through "  " (by decide)).1 _ _,
   (claim_C10_blank_cli_falls_through "  " (by decide)).2 _ _⟩

/-! ### Addon bind env merge (`src/cli/addons.rs`)

`BTreeMap<String, String>` is modelled as an association list with unique
keys; only lookup semantics matter to the claim. -/

abbrev EnvT := List (Text × Text)

def envLookup (m : EnvT) (k : Text) : Option Text :=
  (m.find? (fun p => p.1 = k)).map (fun p => p.2)

/-- `BTreeMap::insert`: overwrite the existing entry or append a new one. -/
def envInsert (m : EnvT) (k v : Text) : EnvT :=
  if m.any (fun p => p.1 = k) then
    m.map (fun p => if p.1 = k then (k, v) else p)
  else m ++ [(k, v)]

/-- `BTreeMap::remove`: the value at `k` (if any) and the map without `k`. -/
def envRemove (m : EnvT) (k : Text) : Option (Text × EnvT) :=
  match envLookup m k with
  | some v => some (v, m.eraseP (fun p => p.1 = k))
  | none => none

/-- One stdout line of a provision command: `split_once('=')`, trim both
sides, skip blank keys. -/
def parse_env_line (envs : EnvT) (line : Text) : EnvT :=
  match splitOnceAt '=' line with
  | some (k, v) =>
    if trim k ≠ [] then envInsert envs (trim k) (trim v) else envs
  | none => envs

/-- `run_provision_commands`, given each command's stdout (all commands
exited successfully; a non-zero exit aborts the bind before any merge). -/
def run_provision_commands (stdouts : List Text) : EnvT :=
  stdouts.foldl (fun envs out => (rustLines out).foldl parse_env_line envs) []

/-- `provision_addon_on_bind`: start from `bind_env`, merge the provision
outputs over it, then for each key of `export_env` in order copy (and
remove) the container-env value over everything. -/
def provision_addon_on_bind (bind_env : EnvT) (stdouts : List Text)
    (export_env : List Text) (container_env : EnvT) : EnvT :=
  let envs := bind_env
  let envs := (run_provision_commands stdouts).foldl
    (fun e p => envInsert e p.1 p.2) envs
  (export_env.foldl
    (fun (s : EnvT × EnvT) k =>
      match envRemove s.2 k with
      | some (v, rest) => (envInsert s.1 k v, rest)
      | none => (s.1, s.2)) (envs, container_env)).1

/-! #### Env lookup lemmas -/

lemma envLookup_nil (k : Text) : envLookup [] k = none := rfl

lemma envLookup_cons (a : Text × Text) (t : EnvT) (k : Text) :
    envLookup (a :: t) k = if a.1 = k then some a.2 else envLookup t k := by
  unfold envLookup
  by_cases h : a.1 = k
  · rw [List.find?_cons_of_pos _ (by simpa using h), if_pos h]
    rfl
  · rw [List.find?_cons_of_neg _ (by simpa using h), if_neg h]

lemma envLookup_eq_none_of_not_mem {t : EnvT} {k : Text}
    (h : k ∉ t.map Prod.fst) : envLookup t k = none := by
  induction t with
  | nil => rfl
  | cons a s ih =>
    rw [List.map_cons, List.mem_cons] at h
    push_neg at h
    rw [envLookup_cons, if_neg (fun ha => h.1 ha.symm)]
    exact ih h.2

lemma envLookup_map_ne (m : EnvT) (k v k' : Text) (hne : k' ≠ k) :
    envLookup (m.map (fun p => if p.1 = k then (k, v) else p)) k'
      = envLookup m k' := by
  induction m with
  | nil => rfl
  | cons a t ih =>
    rw [List.map_cons, envLookup_cons, envLookup_cons]
    by_cases ha : a.1 = k
    · have h1 : ¬((k, v) : Text × Text).1 = k' := fun h => hne h.symm
      have h2 : ¬a.1 = k' := fun h => hne (h ▸ ha)
      rw [if_pos ha, if_neg h1, if_neg h2, ih]
    · rw [if_neg ha, ih]

lemma envLookup_map_eq (m : EnvT) (k v : Text)
    (hany : m.any (fun p => p.1 = k)) :
    envLookup (m.map (fun p => if p.1 = k then (k, v) else p)) k = some v := by
  induction m with
  | nil => simp at hany
  | cons a t ih =>
    rw [List.map_cons, envLookup_cons]
    by_cases ha : a.1 = k
    · rw [if_pos ha, if_pos rfl]
    · have ht : t.any (fun p => p.1 = k) := by
        rcases List.any_eq_true.mp hany with ⟨p, hp, hpk⟩
        rcases List.mem_cons.mp hp with rfl | hp'
        · exact absurd (of_decide_eq_true hpk) ha
        · exact List.any_eq_true.mpr ⟨p, hp', hpk⟩
      rw [if_neg ha, if_neg ha]
      exact ih ht

lemma envLookup_append_single_ne (m : EnvT) (k v k' : Text) (hne : k' ≠ k) :
    envLookup (m ++ [(k, v)]) k' = envLookup m k' := by
  induction m with
  | nil =>
    rw [List.nil_append, envLookup_cons,
      if_neg (fun h => hne (h.symm : k' = k))]
  | cons a t ih =>
    rw [List.cons_append, envLookup_cons, envLookup_cons, ih]

lemma envLookup_append_single_eq (m : EnvT) (k v : Text)
    (hany : ¬m.any (fun p => p.1 = k)) :
    envLookup (m ++ [(k, v)]) k = some v := by
  induction m with
  | nil => rw [List.nil_append, envLookup_cons, if_pos rfl]
  | cons a t ih =>
    rw [List.cons_append, envLookup_cons]
    have ha : ¬a.1 = k := by
      intro h
      exact hany (List.any_eq_true.mpr ⟨a, by simp, decide_eq_true h⟩)
    rw [if_neg ha]
    apply ih
    intro h
    rcases List.any_eq_true.mp h with ⟨p, hp, hpk⟩
    exact hany (List.any_eq_true.mpr ⟨p, by simp [hp], hpk⟩)

lemma envLookup_insert (m : EnvT) (k v k' : Text) :
    envLookup (envInsert m k v) k'
      = if k' = k then some v else envLookup m k' := by
  unfold envInsert
  by_cases hany : m.any (fun p => p.1 = k)
  · rw [if_pos hany]
    by_cases hk : k' = k
    · rw [if_pos hk, hk, envLookup_map_eq m k v hany]
    · rw [if_neg hk, envLookup_map_ne m k v k' hk]
  · rw [if_neg hany]
    by_cases hk : k' = k
    · rw [if_pos hk, hk, envLookup_append_single_eq m k v hany]
    · rw [if_neg hk, envLookup_append_single_ne m k v k' hk]

lemma envInsert_keys (m : EnvT) (k v : Text) :
    (envInsert m k v).map Prod.fst
      = if m.any (fun p => p.1 = k) then m.map Prod.fst
        else m.map Prod.fst ++ [k] := by
  unfold envInsert
  by_cases hany : m.any (fun p => p.1 = k)
  · rw [if_pos hany, if_pos hany, List.map_map]
    apply List.map_congr_left
    intro p hp
    by_cases hpk : p.1 = k
    · simp [hpk]
    · simp [hpk]
  · rw [if_neg hany, if_neg hany, List.map_append]
    rfl

lemma envInsert_keys_nodup {m : EnvT} (hnd : (m.map Prod.fst).Nodup)
    (k v : Text) : ((envInsert m k v).map Prod.fst).Nodup := by
  rw [envInsert_keys]
  by_cases hany : m.any (fun p => p.1 = k)
  · rwa [if_pos hany]
  · rw [if_neg hany]
    have hk : k ∉ m.map Prod.fst := by
      intro hk
      obtain ⟨p, hp, hpk⟩ := List.mem_map.mp hk
      exact hany (List.any_eq_true.mpr ⟨p, hp, decide_eq_true hpk⟩)
    rw [List.nodup_append]
    exact ⟨hnd, List.nodup_singleton k, fun x hx hxk => hk (by
      simp only [List.mem_singleton] at hxk
      exact hxk ▸ hx)⟩

lemma parse_env_line_keys_nodup {m : EnvT} (hnd : (m.map Prod.fst).Nodup)
    (line : Text) : ((parse_env_line m line).map Prod.fst).Nodup := by
  unfold parse_env_line
  cases hsplit : splitOnceAt '=' line with
  | none => exact hnd
  | some p =>
    obtain ⟨k1, v1⟩ := p
    show ((if trim k1 ≠ [] then envInsert m (trim k1) (trim v1) else m).map
      Prod.fst).Nodup
    by_cases hk : trim k1 ≠ []
    · rw [if_pos hk]
      exact envInsert_keys_nodup hnd _ _
    · rw [if_neg hk]
      exact hnd

lemma run_provision_commands_keys_nodup (stdouts : List Text) :
    ((run_provision_commands stdouts).map Prod.fst).Nodup := by
  unfold run_provision_commands
  have hgen : ∀ (outs : List Text) (m : EnvT), (m.map Prod.fst).Nodup →
      ((outs.foldl (fun envs out => (rustLines out).foldl parse_env_line envs)
          m).map Prod.fst).Nodup := by
    intro outs
    induction outs with
    | nil => intro m hm; exact hm
    | cons o os ih =>
      intro m hm
      rw [List.foldl_cons]
      apply ih
      have hlines : ∀ (ls : List Text) (m' : EnvT), (m'.map Prod.fst).Nodup →
          ((ls.foldl parse_env_line m').map Prod.fst).Nodup := by
        intro ls
        induction ls with
        | nil => intro m' hm'; exact hm'
        | cons l ls' ihl =>
          intro m' hm'
          rw [List.foldl_cons]
          exact ihl _ (parse_env_line_keys_nodup hm' l)
      exact hlines _ m hm
  exact hgen stdouts [] (by simp)

lemma envLookup_foldl_insert (ps : EnvT) :
    ∀ (m : EnvT) (k : Text), (ps.map Prod.fst).Nodup →
      envLookup (ps.foldl (fun e p => envInsert e p.1 p.2) m) k
        = match envLookup ps k with
          | some v => some v
          | none => envLookup m k := by
  induction ps with
  | nil => intro m k _; rw [List.foldl_nil, envLookup_nil]
  | cons p t ih =>
    intro m k hnd
    rw [List.map_cons, List.nodup_cons] at hnd
    rw [List.foldl_cons, envLookup_cons, ih _ k hnd.2]
    by_cases hk : p.1 = k
    · subst hk
      rw [envLookup_eq_none_of_not_mem hnd.1, if_pos rfl, envLookup_insert,
        if_pos rfl]
    · rw [if_neg hk]
      cases envLookup t k with
      | some v => rfl
      | none =>
        rw [envLookup_insert, if_neg (fun h => hk h.symm)]

lemma envLookup_eraseP_eq {c : EnvT} (hnd : (c.map Prod.fst).Nodup) (k : Text) :
    envLookup (c.eraseP (fun p => p.1 = k)) k = none := by
  induction c with
  | nil => rfl
  | cons a t ih =>
    rw [List.map_cons, List.nodup_cons] at hnd
    by_cases ha : a.1 = k
    · rw [List.eraseP_cons_of_pos (by simpa using ha)]
      exact envLookup_eq_none_of_not_mem (ha ▸ hnd.1)
    · rw [List.eraseP_cons_of_neg (by simpa using ha), envLookup_cons, if_neg ha]
      exact ih hnd.2

lemma envLookup_eraseP_ne (c : EnvT) (k k' : Text) (hne : k' ≠ k) :
    envLookup (c.eraseP (fun p => p.1 = k)) k' = envLookup c k' := by
  induction c with
  | nil => rfl
  | cons a t ih =>
    by_cases ha : a.1 = k
    · rw [List.eraseP_cons_of_pos (by simpa using ha), envLookup_cons,
        if_neg (fun h => hne (h.symm.trans ha))]
    · rw [List.eraseP_cons_of_neg (by simpa using ha), envLookup_cons,
        envLookup_cons, ih]

lemma eraseP_keys_nodup {c : EnvT} (hnd : (c.map Prod.fst).Nodup) (k : Text) :
    ((c.eraseP (fun p => p.1 = k)).map Prod.fst).Nodup :=
  List.Nodup.sublist ((List.eraseP_sublist c).map Prod.fst) hnd

lemma envLookup_export_fold (ks : List Text) :
    ∀ (e c : EnvT), (c.map Prod.fst).Nodup → ∀ k : Text,
      envLookup ((ks.foldl
          (fun (s : EnvT × EnvT) k' =>
            match envRemove s.2 k' with
            | some (v, rest) => (envInsert s.1 k' v, rest)
            | none => (s.1, s.2)) (e, c)).1) k
        = if k ∈ ks ∧ envLookup c k ≠ none then envLookup c k
          else envLookup e k := by
  induction ks with
  | nil =>
    intro e c _ k
    rw [List.foldl_nil, if_neg (by simp)]
  | cons k' ks' ih =>
    intro e c hnd k
    rw [List.foldl_cons]
    cases hlook : envLookup c k' with
    | none =>
      have hrem : envRemove c k' = none := by
        unfold envRemove
        rw [hlook]
      rw [show (match envRemove c k' with
          | some (v, rest) => (envInsert e k' v, rest)
          | none => (e, c)) = (e, c) from by rw [hrem], ih e c hnd k]
      by_cases hkk : k = k'
      · subst hkk
        rw [hlook]
        simp
      · by_cases hmem : k ∈ ks' ∧ envLookup c k ≠ none
        · rw [if_pos hmem, if_pos ⟨List.mem_cons.mpr (Or.inr hmem.1), hmem.2⟩]
        · rw [if_neg hmem, if_neg (fun hc => hmem
            ⟨(List.mem_cons.mp hc.1).resolve_left hkk, hc.2⟩)]
    | some v =>
      have hrem : envRemove c k' = some (v, c.eraseP (fun p => p.1 = k')) := by
        unfold envRemove
        rw [hlook]
      rw [show (match envRemove c k' with
          | some (v, rest) => (envInsert e k' v, rest)
          | none => (e, c)) = (envInsert e k' v, c.eraseP (fun p => p.1 = k'))
          from by rw [hrem],
        ih (envInsert e k' v) _ (eraseP_keys_nodup hnd k') k]
      by_cases hkk : k = k'
      · subst hkk
        rw [envLookup_eraseP_eq hnd k, hlook]
        rw [if_neg (by simp), if_pos ⟨List.mem_cons_self k ks', by simp⟩,
          envLookup_insert, if_pos rfl]
      · rw [envLookup_eraseP_ne c k' k hkk]
        by_cases hmem : k ∈ ks' ∧ envLookup c k ≠ none
        · rw [if_pos hmem, if_pos ⟨List.mem_cons.mpr (Or.inr hmem.1), hmem.2⟩]
        · rw [if_neg hmem, if_neg (fun hc => hmem
            ⟨(List.mem_cons.mp hc.1).resolve_left hkk, hc.2⟩),
            envLookup_insert, if_neg hkk]

/-- C8: the binding env computed at bind time is a later-wins merge: it
starts from `bind_env`; every `KEY=VALUE` line parsed from the provision
commands' stdout overrides any equal key; and for exactly the keys listed in
`export_env` that the addon container's declared env defines, the container
value overrides both.  Container env keys not listed in `export_env` are
never copied into the result. -/
theorem claim_C8_bind_env_merge (bind_env : EnvT) (stdouts : List Text)
    (export_env : List Text) (container_env : EnvT)
    (hck : (container_env.map Prod.fst).Nodup) (k : Text) :
    ((k ∈ export_env ∧ envLookup container_env k ≠ none) →
      envLookup (provision_addon_on_bind bind_env stdouts export_env
          container_env) k
        = envLookup container_env k) ∧
    ((k ∉ export_env ∨ envLookup container_env k = none) →
      envLookup (provision_addon_on_bind bind_env stdouts export_env
          container_env) k
        = match envLookup (run_provision_commands stdouts) k with
          | some v => some v
          | none => envLookup bind_env k) := by
  have hmain : envLookup (provision_addon_on_bind bind_env stdouts export_env
      container_env) k
      = if k ∈ export_env ∧ envLookup container_env k ≠ none
        then envLookup container_env k
        else envLookup ((run_provision_commands stdouts).foldl
          (fun e p => envInsert e p.1 p.2) bind_env) k := by
    unfold provision_addon_on_bind
    exact envLookup_export_fold export_env _ container_env hck k
  constructor
  · intro hc
    rw [hmain, if_pos hc]
  · intro hc
    rw [hmain, if_neg ?_, envLookup_foldl_insert _ bind_env k
      (run_provision_commands_keys_nodup stdouts)]
    rcases hc with hc | hc
    · exact fun h => hc h.1
    · exact fun h => h.2 hc

theorem claim_C8_witness :
    envLookup (provision_addon_on_bind
        [("STATIC".data, "1".data)] ["DB=app\n".data] ["HOST".data]
        [("HOST".data, "127.0.0.1".data), ("PORT".data, "5432".data)])
      "HOST".data = some "127.0.0.1".data ∧
    envLookup (provision_addon_on_bind
        [("STATIC".data, "1".data)] ["DB=app\n".data] ["HOST".data]
        [("HOST".data, "127.0.0.1".data), ("PORT".data, "5432".data)])
      "PORT".data = none ∧
    envLookup (provision_addon_on_bind
        [("STATIC".data, "1".data)] ["DB=app\n".data] ["HOST".data]
        [("HOST".data, "127.0.0.1".data), ("PORT".data, "5432".data)])
      "DB".data = some "app".data ∧
    envLookup (provision_addon_on_bind
        [("STATIC".data, "1".data)] ["DB=app\n".data] ["HOST".data]
        [("HOST".data, "127.0.0.1".data), ("PORT".data, "5432".data)])
      "STATIC".data = some "1".data := by
  refine ⟨?_, ?_, ?_, ?_⟩
  · have h := (claim_C8_bind_env_merge [("STATIC".data, "1".data)]
      ["DB=app\n".data] ["HOST".data]
      [("HOST".data, "127.0.0.1".data), ("PORT".data, "5432".data)]
      (by decide) "HOST".data).1 ⟨by decide, by decide⟩
    rw [h]
    decide
  · have h := (claim_C8_bind_env_merge [("STATIC".data, "1".data)]
      ["DB=app\n".data] ["HOST".data]
      [("HOST".data, "127.0.0.1".data), ("PORT".data, "5432".data)]
      (by decide) "PORT".data).2 (Or.inl (by decide))
    rw [h]
    decide
  · have h := (claim_C8_bind_env_merge [("STATIC".data, "1".data)]
      ["DB=app\n".data] ["HOST".data]
      [("HOST".data, "127.0.0.1".data), ("PORT".data, "5432".data)]
      (by decide) "DB".data).2 (Or.inl (by decide))
    rw [h]
    decide
  · have h := (claim_C8_bind_env_merge [("STATIC".data, "1".data)]
      ["DB=app\n".data] ["HOST".data]
      [("HOST".data, "127.0.0.1".data), ("PORT".data, "5432".data)]
      (by decide) "STATIC".data).2 (Or.inl (by decide))
    rw [h]
    decide

/-! ### Quadlet directory selection (`src/systemd.rs`, `src/cli/host.rs`) -/

/-- `default_quadlet_dir`: `$HOME/.config/containers/systemd` when HOME is
set, `/etc/containers/systemd` otherwise. -/
def default_quadlet_dir (home : Option String) : String :=
  match home with
  | some h => h ++ "/.config/containers/systemd"
  | none => "/etc/containers/systemd"

/-- `user_quadlet_dir`: the user-scope directory, failing without HOME. -/
def user_quadlet_dir (home : Option String) : Except String String :=
  match home with
  | some h => .ok (h ++ "/.config/containers/systemd")
  | none => .error "HOME not set for user quadlets"

/-- Rust `str::parse::<u16>`: optional leading `'+'`, decimal digits only,
rejecting the empty string and values above `u16::MAX`. -/
def parse_u16 (s : Text) : Option Nat :=
  let s2 := match s with
    | '+' :: rest => rest
    | _ => s
  if s2 ≠ [] ∧ s2.all (fun c => c.isDigit) then
    let n := s2.foldl (fun acc c => acc * 10 + (c.toNat - 48)) 0
    if n ≤ 65535 then some n else none
  else none

/-- `user_can_bind_low_ports`: read
`/proc/sys/net/ipv4/ip_unprivileged_port_start` (its contents passed as
`procRaw`, `none` = unreadable), parse it, and compare with the port. -/
def user_can_bind_low_ports (procRaw : Option Text) (port : Nat) : Bool :=
  match procRaw with
  | none => false
  | some raw =>
    match parse_u16 (trim raw) with
    | some value => value ≤ port
    | none => false

/-- `select_quadlet_dir` from `src/cli/host.rs`. -/
def select_quadlet_dir (system user : Bool) (home : Option String)
    (procRaw : Option Text) (http_port https_port : Nat) :
    Except String String :=
  if system ∧ user then .error "choose only one of --system or --user"
  else
    let min_port := min http_port https_port
    let needs_low := min_port < 1024
    if user then
      if needs_low ∧ ¬user_can_bind_low_ports procRaw min_port then
        .error "user quadlets cannot bind to ports <1024"
      else user_quadlet_dir home
    else if system then .ok "/etc/containers/systemd"
    else if needs_low then
      if user_can_bind_low_ports procRaw min_port then user_quadlet_dir home
      else .ok "/etc/containers/systemd"
    else user_quadlet_dir home

/-- C9: with no directory configured the default is
`$HOME/.config/containers/systemd` when HOME is set and
`/etc/containers/systemd` otherwise; and for host init (no explicit scope
flags), when a required port is below 1024 the selector picks the system
directory unless the kernel's `ip_unprivileged_port_start` value permits an
unprivileged process to bind that port (`value ≤ port`), in which case the
user directory is chosen. -/
theorem claim_C9_quadlet_dir (home : Option String) (procRaw : Option Text)
    (hp sp : Nat) :
    (∀ h, default_quadlet_dir (some h) = h ++ "/.config/containers/systemd") ∧
    default_quadlet_dir none = "/etc/containers/systemd" ∧
    (min hp sp < 1024 →
      (user_can_bind_low_ports procRaw (min hp sp) = true →
        select_quadlet_dir false false home procRaw hp sp
          = user_quadlet_dir home) ∧
      (user_can_bind_low_ports procRaw (min hp sp) = false →
        select_quadlet_dir false false home procRaw hp sp
          = .ok "/etc/containers/systemd")) ∧
    (∀ raw value, parse_u16 (trim raw) = some value →
      user_can_bind_low_ports (some raw) (min hp sp)
        = decide (value ≤ min hp sp)) := by
  refine ⟨fun h => rfl, rfl, ?_, ?_⟩
  · intro hlow
    constructor
    · intro hcan
      simp [select_quadlet_dir, hlow, hcan]
    · intro hcan
      simp [select_quadlet_dir, hlow, hcan]
  · intro raw value hvp
    show (match parse_u16 (trim raw) with
      | some value => decide (value ≤ min hp sp)
      | none => false) = decide (value ≤ min hp sp)
    rw [hvp]

theorem claim_C9_witness :
    select_quadlet_dir false false (some "/home/u") (some "0\n".data) 80 443
      = Except.ok ("/home/u" ++ "/.config/containers/systemd") ∧
    select_quadlet_dir false false (some "/home/u") (some "9999".data) 80 443
      = Except.ok "/etc/containers/systemd" := by
  have h1 := ((claim_C9_quadlet_dir (some "/home/u") (some "0\n".data)
    80 443).2.2.1 (by decide)).1 (by decide)
  have h2 := ((claim_C9_quadlet_dir (some "/home/u") (some "9999".data)
    80 443).2.2.1 (by decide)).2 (by decide)
  exact ⟨h1.trans rfl, h2⟩

end Deep
